import Mathlib

/-!
Verification of the cargo distribution system (Kocaeli Kargo Dağıtım Sistemi).

The front-end source `static/js/main.js` is embedded directly
(`getOSRMRoute`, `drawOSRMRoute`, `haversineDistance`,
`generateTrackingNumber`).  The back-end optimisation engine
(capacity selector, genetic-algorithm route optimizer, A* distance
oracle) is not part of the available sources and is modelled from the
specification; every such definition carries a doc comment starting
with `Modelled from the spec:`.
-/

set_option maxHeartbeats 1000000

namespace CargoSystem

/-! Section: OSRM routing model (from `static/js/main.js`, `getOSRMRoute` / `drawOSRMRoute`)

The network call and JSON parsing are effectful; they are modelled by an
explicit `Except Unit OSRMResponse` argument: `.error` stands for a fetch
or parse failure (the `catch` branch of the source), `.ok` for a parsed
response object. -/

/-- One entry of the `routes` array of an OSRM response: `distance` in
metres, `duration` in seconds, `geometry.coordinates` as `[lng, lat]`
pairs. -/
structure OSRMRouteData where
  distance : ℝ
  duration : ℝ
  geometry : List (ℝ × ℝ)

/-- A parsed OSRM response body: a `code` string and a `routes` array. -/
structure OSRMResponse where
  code : String
  routes : List OSRMRouteData

/-- The value produced by a successful `getOSRMRoute` call: Leaflet-order
coordinates, distance in km, duration in seconds. -/
structure RouteResult where
  coordinates : List (ℝ × ℝ)
  distance : ℝ
  duration : ℝ

/-- Embedding of `getOSRMRoute` from `static/js/main.js`.  The
`coordinates` argument is `none` when the JS argument is missing
(`!coordinates`); the fetch/parse outcome is the explicit second
argument.  Mirrors the source: fewer than two coordinates return `null`;
a fetch/parse failure is caught and returns `null`; a response whose
`code` is not `"Ok"` or whose `routes` is empty returns `null`;
otherwise the geometry is swapped from `[lng, lat]` to `[lat, lng]`
and the distance converted from metres to km. -/
noncomputable def getOSRMRoute (coordinates : Option (List (ℝ × ℝ)))
    (fetched : Except Unit OSRMResponse) : Option RouteResult :=
  match coordinates with
  | none => none
  | some coords =>
    if coords.length < 2 then none
    else
      match fetched with
      | .error _ => none
      | .ok data =>
        if data.code = "Ok" then
          match data.routes with
          | [] => none
          | r :: _ =>
            some ⟨r.geometry.map (fun c => (c.2, c.1)), r.distance / 1000, r.duration⟩
        else none

/-- The record returned by `drawOSRMRoute`: which coordinates the drawn
polyline passes through, whether it is the dashed fallback line, and the
`distance` / `duration` fields (`none` models JS `null`). -/
structure DrawResult where
  lineCoords : List (ℝ × ℝ)
  dashed : Bool
  distance : Option ℝ
  duration : Option ℝ

/-- Embedding of `drawOSRMRoute` from `static/js/main.js` (the map-object
side effects are dropped; the returned record and the polyline geometry
are kept).  When OSRM succeeds with a nonempty geometry the solid route
polyline is drawn and its distance/duration returned; otherwise a dashed
straight polyline through the raw waypoints is drawn and `distance` and
`duration` are `null`. -/
noncomputable def drawOSRMRoute (waypoints : List (ℝ × ℝ))
    (fetched : Except Unit OSRMResponse) : DrawResult :=
  match getOSRMRoute (some waypoints) fetched with
  | some route =>
    if 0 < route.coordinates.length then
      ⟨route.coordinates, false, some route.distance, some route.duration⟩
    else ⟨waypoints, true, none, none⟩
  | none => ⟨waypoints, true, none, none⟩

/-! Section: Tracking numbers (from `static/js/main.js`, `generateTrackingNumber`) -/

/-- The character JS `Number.prototype.toString(36)` uses for one base-36
digit: `0`–`9` then lowercase `a`–`z`. -/
def base36Char (d : Fin 36) : Char :=
  if d.val < 10 then Char.ofNat (48 + d.val) else Char.ofNat (87 + d.val)

/-- Decimal representation of a natural number as a character list,
modelling JS `Number.prototype.toString()` for nonnegative integers. -/
def decimalRepr (n : Nat) : List Char :=
  ((Nat.digits 10 n).reverse).map Nat.digitChar

/-- JS `String.prototype.slice(-6)`: the last six characters, or the whole
string when it is shorter. -/
def lastSix (l : List Char) : List Char := l.drop (l.length - 6)

/-- Embedding of `generateTrackingNumber` from `static/js/main.js`.
`now` models `Date.now()`; `randDigits` models the base-36 fractional
digits of `Math.random()` as printed by `toString(36)` (everything after
the leading `"0."`, empty when the float prints without a fractional
part).  `substring(2, 6)` keeps at most the first four of those digits,
and `toUpperCase` uppercases them. -/
def generateTrackingNumber (now : Nat) (randDigits : List (Fin 36)) : String :=
  String.mk ("KOC".data ++ lastSix (decimalRepr now) ++
    (randDigits.take 4).map (fun d => (base36Char d).toUpper))

/-- The uppercase base-36 alphabet produced by `toString(36).toUpperCase()`. -/
def upperBase36 : List Char := "0123456789ABCDEFGHIJKLMNOPQRSTUVWXYZ".data

/-! Section: Data model (from the spec, §3 and §6) -/

/-- Modelled from the spec: a station snapshot record
`{id, name, lat, lng, is_depot}` (§6). -/
structure StationRec where
  id : Nat
  name : String
  lat : ℚ
  lng : ℚ
  isDepot : Bool
  deriving DecidableEq

/-- Modelled from the spec: a cargo snapshot record with identifier,
destination station, weight in kg (integer granularity, §4.2), and
ordinal priority (§3). -/
structure Cargo where
  id : Nat
  weightKg : Nat
  priority : Nat
  destId : Nat
  deriving DecidableEq

/-- Modelled from the spec: a vehicle record
`{id, capacity_kg, cost_per_km, is_rental, daily_fee}` (§6). -/
structure Vehicle where
  id : Nat
  capacityKg : Nat
  costPerKm : ℤ
  isRental : Bool
  dailyFee : ℤ
  deriving DecidableEq

/-- Total weight of a list of cargos, in kg. -/
def cargoWeight (cs : List Cargo) : Nat := (cs.map Cargo.weightKg).sum

/-- Total priority value of a list of cargos. -/
def cargoValue (cs : List Cargo) : Nat := (cs.map Cargo.priority).sum

/-! Section: Capacity Selector (missing from the sources; modelled from the spec §4.2) -/

/-- Modelled from the spec: the 0/1 knapsack selection of the Capacity
Selector (§4.2), "maximize total priority value of selected cargo subject
to total weight ≤" the bound, items indivisible.  The spec's DP table
`table[w] = max priority value achievable with total weight ≤ w` is
computed here by its defining recurrence (take the item, using the
remaining weight budget, or skip it, keeping whichever gives more value);
alongside the chosen list the rejected (deferred) list is returned. -/
def knapSelect : List Cargo → Nat → List Cargo × List Cargo
  | [], _ => ([], [])
  | c :: cs, w =>
    if c.weightKg ≤ w then
      let withC := knapSelect cs (w - c.weightKg)
      let without := knapSelect cs w
      if cargoValue without.1 < cargoValue (c :: withC.1) then
        (c :: withC.1, withC.2)
      else (without.1, c :: without.2)
    else
      let r := knapSelect cs w
      (r.1, c :: r.2)

/-- Combined capacity of the base (non-rental) fleet. -/
def baseCapacity (fleet : List Vehicle) : Nat :=
  ((fleet.filter (fun v => !v.isRental)).map Vehicle.capacityKg).sum

/-- Combined capacity of the whole fleet, rental included. -/
def fleetCapacity (fleet : List Vehicle) : Nat :=
  (fleet.map Vehicle.capacityKg).sum

/-- Modelled from the spec: the Capacity Selector contract
`select(cargos, fleet) -> (selected, deferred)` (§4.2): when total pending
weight fits the base fleet everything is selected and the rental is not
activated; otherwise the knapsack runs against base-plus-rental capacity
and the rejected cargos are deferred.  The boolean records whether the
rental vehicle was activated. -/
def selectCargos (pending : List Cargo) (fleet : List Vehicle) :
    List Cargo × List Cargo × Bool :=
  if cargoWeight pending ≤ baseCapacity fleet then (pending, [], false)
  else
    let r := knapSelect pending (fleetCapacity fleet)
    (r.1, r.2, true)

/-! Section: Haversine distance (from `static/js/main.js`, `haversineDistance`) -/

/-- JS `Math.atan2(y, x)`: the angle of the point `(x, y)`, in `(-π, π]`
(the IEEE signed-zero corner cases collapse onto the `x = 0` branch). -/
noncomputable def atan2 (y x : ℝ) : ℝ :=
  if 0 < x then Real.arctan (y / x)
  else if x < 0 then
    if 0 ≤ y then Real.arctan (y / x) + Real.pi
    else Real.arctan (y / x) - Real.pi
  else if 0 < y then Real.pi / 2
  else if y < 0 then -(Real.pi / 2)
  else 0

/-- Embedding of `haversineDistance` from `static/js/main.js`: Earth radius
6371 km, degree inputs converted to radians, `a` and
`c = 2·atan2(√a, √(1-a))` exactly as in the source. -/
noncomputable def haversineDistance (lat1 lon1 lat2 lon2 : ℝ) : ℝ :=
  let R : ℝ := 6371
  let dLat := (lat2 - lat1) * Real.pi / 180
  let dLon := (lon2 - lon1) * Real.pi / 180
  let a := Real.sin (dLat / 2) * Real.sin (dLat / 2) +
    Real.cos (lat1 * Real.pi / 180) * Real.cos (lat2 * Real.pi / 180) *
    Real.sin (dLon / 2) * Real.sin (dLon / 2)
  let c := 2 * atan2 (Real.sqrt a) (Real.sqrt (1 - a))
  R * c

/-- The `a` term of the Haversine computation, named for reuse in proofs. -/
noncomputable def havA (lat1 lon1 lat2 lon2 : ℝ) : ℝ :=
  let dLat := (lat2 - lat1) * Real.pi / 180
  let dLon := (lon2 - lon1) * Real.pi / 180
  Real.sin (dLat / 2) * Real.sin (dLat / 2) +
    Real.cos (lat1 * Real.pi / 180) * Real.cos (lat2 * Real.pi / 180) *
    Real.sin (dLon / 2) * Real.sin (dLon / 2)

/-- The standard Haversine formula in its textbook arcsine form
`d = 2 R arcsin √(sin²(Δφ/2) + cos φ₁ cos φ₂ sin²(Δλ/2))` with
`R = 6371` km, written from the specification's words as the reference
the source is compared against. -/
noncomputable def haversineFormulaStd (lat1 lon1 lat2 lon2 : ℝ) : ℝ :=
  2 * 6371 * Real.arcsin (Real.sqrt
    (Real.sin ((lat2 - lat1) * Real.pi / 180 / 2) ^ 2 +
      Real.cos (lat1 * Real.pi / 180) * Real.cos (lat2 * Real.pi / 180) *
      Real.sin ((lon2 - lon1) * Real.pi / 180 / 2) ^ 2))

/-- Cosine of the central angle between two latitude/longitude points on
the unit sphere (the spherical law of cosines expression). -/
noncomputable def sphereCos (lat1 lon1 lat2 lon2 : ℝ) : ℝ :=
  Real.sin (lat1 * Real.pi / 180) * Real.sin (lat2 * Real.pi / 180) +
    Real.cos (lat1 * Real.pi / 180) * Real.cos (lat2 * Real.pi / 180) *
    Real.cos ((lon2 - lon1) * Real.pi / 180)

/-- The x coordinate of the unit vector of a latitude/longitude point on
the unit sphere (degree inputs). -/
noncomputable def sphX (lat lon : ℝ) : ℝ :=
  Real.cos (lat * Real.pi / 180) * Real.cos (lon * Real.pi / 180)

/-- The y coordinate of the unit vector of a latitude/longitude point. -/
noncomputable def sphY (lat lon : ℝ) : ℝ :=
  Real.cos (lat * Real.pi / 180) * Real.sin (lon * Real.pi / 180)

/-- The z coordinate of the unit vector of a latitude/longitude point. -/
noncomputable def sphZ (lat lon : ℝ) : ℝ :=
  Real.sin (lat * Real.pi / 180)

/-! Section: Distance Oracle (missing from the sources; modelled from the spec §4.1) -/

/-- Modelled from the spec: a station node of the Distance Oracle graph
(§4.1); identifier plus latitude/longitude in degrees. -/
structure GeoStation where
  id : Nat
  lat : ℝ
  lng : ℝ

/-- Modelled from the spec: §4.1 — complete-graph edge weight, the
great-circle distance scaled by the fixed road factor 1.35. -/
noncomputable def edgeWeight (p q : GeoStation) : ℝ :=
  1.35 * haversineDistance p.lat p.lng q.lat q.lng

/-- Modelled from the spec: §4.1 heuristic — "Haversine great-circle
distance between current node and destination, scaled by the same road
factor (1.35×)". -/
noncomputable def heuristic (p dest : GeoStation) : ℝ :=
  1.35 * haversineDistance p.lat p.lng dest.lat dest.lng

/-- Cost of a path (a stop sequence) in the complete road graph. -/
noncomputable def pathCost : List GeoStation → ℝ
  | [] => 0
  | [_] => 0
  | p :: q :: rest => edgeWeight p q + pathCost (q :: rest)

/-- An open-set entry of the A* search: its node, the cost so far `g`, and
the path so far, stored in reverse. -/
structure SearchEntry where
  node : GeoStation
  g : ℝ
  revPath : List GeoStation

/-- `g + h`: the open-set ordering key of the spec's A* (§4.1). -/
noncomputable def fEntry (dest : GeoStation) (e : SearchEntry) : ℝ :=
  e.g + heuristic e.node dest

/-- The tie-breaking key: the heuristic alone (prefer nodes closer to the
goal). -/
noncomputable def hEntry (dest : GeoStation) (e : SearchEntry) : ℝ :=
  heuristic e.node dest

/-- Strict "is extracted first from the open set" order of the spec's A*:
lower `g + h`, ties broken by lower `h`. -/
def better (dest : GeoStation) (x y : SearchEntry) : Prop :=
  fEntry dest x < fEntry dest y ∨
    (fEntry dest x = fEntry dest y ∧ hEntry dest x < hEntry dest y)

open Classical in
/-- Pop the minimum entry (per `better`) from a nonempty open set,
returning it together with the remaining entries. -/
noncomputable def extractMin (dest : GeoStation) :
    SearchEntry → List SearchEntry → SearchEntry × List SearchEntry
  | e, [] => (e, [])
  | e, x :: xs =>
    if better dest x e then
      let r := extractMin dest x xs
      (r.1, e :: r.2)
    else
      let r := extractMin dest e xs
      (r.1, x :: r.2)

open Classical in
/-- Modelled from the spec: expansion of one node in the complete station
graph — every station not yet closed and different from the current node
becomes an open entry via the scaled-Haversine edge weight. -/
noncomputable def expandNode (st : List GeoStation) (closed : List GeoStation)
    (cur : SearchEntry) : List SearchEntry :=
  (st.filter (fun m => decide (m ∉ closed ∧ m ≠ cur.node))).map
    (fun m => ⟨m, cur.g + edgeWeight cur.node m, m :: cur.revPath⟩)

open Classical in
/-- Modelled from the spec: the A* loop (§4.1) — extract the open entry
with least `g + h` (ties by lower `h`), stop when it is the destination,
skip it when it is closed (the closed set prevents re-expansion), expand
otherwise.  Fuel makes termination explicit. -/
noncomputable def aStarLoop (st : List GeoStation) (dest : GeoStation) :
    Nat → List SearchEntry → List GeoStation → Option (List GeoStation × ℝ)
  | 0, _, _ => none
  | _ + 1, [], _ => none
  | fuel + 1, e :: es, closed =>
    let r := extractMin dest e es
    if r.1.node = dest then some (r.1.revPath.reverse, r.1.g)
    else if r.1.node ∈ closed then aStarLoop st dest fuel r.2 closed
    else aStarLoop st dest fuel (r.2 ++ expandNode st closed r.1) (r.1.node :: closed)

/-- Modelled from the spec: the Distance Oracle's A* search from `start`
to `dest` over the complete graph on the station list. -/
noncomputable def aStar (st : List GeoStation) (start dest : GeoStation) :
    Option (List GeoStation × ℝ) :=
  aStarLoop st dest (st.length + 1) [⟨start, 0, [start]⟩] []

/-! Section: Route Optimizer — genetic algorithm (missing from the sources;
modelled from the spec §4.3 and §9) -/

/-- Modelled from the spec: the explicit algorithm configuration of §9
(population size, generation cap, mutation/crossover rates as integer
percentages, elite count, penalty weight), passed into the optimizer at
call time. -/
structure GAConfig where
  popSize : Nat
  generations : Nat
  eliteCount : Nat
  crossoverPercent : Nat
  mutationPercent : Nat
  penaltyPerKg : ℤ
  deriving DecidableEq

/-- Modelled from the spec (§9): the explicitly owned, seedable random
generator threaded by reference through the run — a linear congruential
step on a plain seed. -/
def lcgNext (s : Nat) : Nat := (1103515245 * s + 12345) % 2147483648

/-- Draw a number below `n` (degenerate `0` when `n = 0`) and the
successor seed. -/
def randBelow (s n : Nat) : Nat × Nat :=
  let s2 := lcgNext s
  (if n = 0 then 0 else s2 % n, s2)

/-- One gene of a candidate solution: a cargo together with the index of
the vehicle it is assigned to. -/
abbrev Gene := Cargo × Nat

/-- Modelled from the spec: a candidate solution (chromosome, §3) — a
partition of the selected cargo into per-vehicle ordered sequences,
encoded as an ordered list of vehicle-tagged cargos. -/
abbrev Chromosome := List Gene

/-- Random initial assignment of each selected cargo to a vehicle index. -/
def assignRandom : List Cargo → Nat → Nat → Chromosome × Nat
  | [], _, s => ([], s)
  | c :: cs, nv, s =>
    let r := randBelow s nv
    let rest := assignRandom cs nv r.2
    ((c, r.1) :: rest.1, rest.2)

/-- Modelled from the spec: the initial population (§4.3 step 1). -/
def initPopulation : Nat → List Cargo → Nat → Nat → List Chromosome × Nat
  | 0, _, _, s => ([], s)
  | k + 1, sel, nv, s =>
    let c := assignRandom sel nv s
    let rest := initPopulation k sel nv c.2
    (c.1 :: rest.1, rest.2)

/-- The cargos a chromosome assigns to the vehicle with index `i`, in
chromosome order. -/
def routeCargos (ch : Chromosome) (i : Nat) : List Cargo :=
  (ch.filter (fun g => g.2 == i)).map Prod.fst

/-- The stop sequence of a route: depot, then the distinct destination
stations of its cargos in first-appearance order, then the depot again. -/
def routeStops (depot : Nat) (cs : List Cargo) : List Nat :=
  depot :: ((cs.map Cargo.destId).filter (fun dst => dst ≠ depot)).dedup ++ [depot]

/-- Length of a stop sequence under the pairwise distance oracle. -/
def routeDistance (d : Nat → Nat → ℤ) : List Nat → ℤ
  | [] => 0
  | [_] => 0
  | a :: b :: rest => d a b + routeDistance d (b :: rest)

/-- Kilograms by which a cargo list exceeds a vehicle's capacity
(`0` when it fits; integer kg granularity). -/
def overweightKg (v : Vehicle) (cs : List Cargo) : Nat :=
  cargoWeight cs - v.capacityKg

/-- Modelled from the spec: the cost of one route (§4.3 fitness) —
distance times the vehicle's per-km cost, plus the rental's fixed daily
fee when the rental vehicle carries anything; a vehicle with no assigned
cargo yields no route and no cost. -/
def routeCost (d : Nat → Nat → ℤ) (depot : Nat) (v : Vehicle) (cs : List Cargo) : ℤ :=
  if cs = [] then 0
  else routeDistance d (routeStops depot cs) * v.costPerKm +
    (if v.isRental then v.dailyFee else 0)

/-- Fitness contribution of the fleet tail starting at vehicle index `i`. -/
def fitnessAux (cfg : GAConfig) (d : Nat → Nat → ℤ) (depot : Nat) :
    List Vehicle → Nat → Chromosome → ℤ
  | [], _, _ => 0
  | v :: vs, i, ch =>
    routeCost d depot v (routeCargos ch i) +
      cfg.penaltyPerKg * (overweightKg v (routeCargos ch i) : ℤ) +
      fitnessAux cfg d depot vs (i + 1) ch

/-- Modelled from the spec: the fitness of a candidate solution (§4.3) —
total distance-based cost plus a per-kg penalty for capacity violations;
lower is better. -/
def fitness (cfg : GAConfig) (d : Nat → Nat → ℤ) (depot : Nat)
    (fleet : List Vehicle) (ch : Chromosome) : ℤ :=
  fitnessAux cfg d depot fleet 0 ch

/-- Insert a chromosome into a fitness-sorted list. -/
def insertByFitness (f : Chromosome → ℤ) (c : Chromosome) :
    List Chromosome → List Chromosome
  | [] => [c]
  | x :: xs => if f c ≤ f x then c :: x :: xs else x :: insertByFitness f c xs

/-- Sort a population by ascending fitness (insertion sort). -/
def sortByFitness (f : Chromosome → ℤ) : List Chromosome → List Chromosome
  | [] => []
  | c :: cs => insertByFitness f c (sortByFitness f cs)

/-- The fitness of the best individual of a population. -/
def bestFitness (f : Chromosome → ℤ) : List Chromosome → ℤ
  | [] => 0
  | [c] => f c
  | c :: x :: xs => min (f c) (bestFitness f (x :: xs))

/-- Modelled from the spec: tournament selection (§4.3 step 2) — draw two
random individuals and keep the fitter. -/
def tournament (f : Chromosome → ℤ) (pop : List Chromosome) (s : Nat) :
    Chromosome × Nat :=
  let r1 := randBelow s pop.length
  let r2 := randBelow r1.2 pop.length
  let c1 := pop.getD r1.1 []
  let c2 := pop.getD r2.1 []
  (if f c1 ≤ f c2 then c1 else c2, r2.2)

/-- Which vehicle the other parent assigns a gene's cargo to (falling back
to the gene's own assignment when the cargo is absent there). -/
def lookupVehicle (other : Chromosome) (g : Gene) : Nat :=
  match other.find? (fun g2 => g2.1.id == g.1.id) with
  | some g2 => g2.2
  | none => g.2

/-- Modelled from the spec: order-preserving crossover (§4.3 step 3) —
the child keeps the first parent's cargo order and takes each cargo's
route membership from the second parent, so no cargo is duplicated or
dropped. -/
def crossover (c1 c2 : Chromosome) : Chromosome :=
  c1.map (fun g => (g.1, lookupVehicle c2 g))

/-- Swap the genes at two positions of a chromosome. -/
def swapPositions (ch : Chromosome) (i j : Nat) : Chromosome :=
  if i = j then ch
  else
    match ch.get? i, ch.get? j with
    | some gi, some gj => (ch.set i gj).set j gi
    | _, _ => ch

/-- Re-assign the cargo at one position to another vehicle index. -/
def reassignPosition (ch : Chromosome) (k : Nat) (newV : Nat) : Chromosome :=
  match ch.get? k with
  | some g => ch.set k (g.1, newV)
  | none => ch

/-- Modelled from the spec: mutation (§4.3 step 4) — with the configured
probability, either swap two stops within the tour or move one cargo to
another route. -/
def mutate (cfg : GAConfig) (nv : Nat) (ch : Chromosome) (s : Nat) :
    Chromosome × Nat :=
  let r := randBelow s 100
  if r.1 < cfg.mutationPercent then
    let rc := randBelow r.2 2
    if rc.1 == 0 then
      let ri := randBelow rc.2 ch.length
      let rj := randBelow ri.2 ch.length
      (swapPositions ch ri.1 rj.1, rj.2)
    else
      let rk := randBelow rc.2 ch.length
      let rv := randBelow rk.2 nv
      (reassignPosition ch rk.1 rv.1, rv.2)
  else (ch, r.2)

/-- Produce the requested number of offspring via tournament selection,
crossover with the configured probability, and mutation. -/
def makeOffspring (cfg : GAConfig) (f : Chromosome → ℤ) (nv : Nat)
    (pop : List Chromosome) : Nat → Nat → List Chromosome × Nat
  | 0, s => ([], s)
  | k + 1, s =>
    let p1 := tournament f pop s
    let p2 := tournament f pop p1.2
    let rx := randBelow p2.2 100
    let child := if rx.1 < cfg.crossoverPercent then crossover p1.1 p2.1 else p1.1
    let m := mutate cfg nv child rx.2
    let rest := makeOffspring cfg f nv pop k m.2
    (m.1 :: rest.1, rest.2)

/-- Modelled from the spec: one generation (§4.3 step 5, elitism) — the
`eliteCount` best individuals are carried unchanged into the next
generation, the rest of the population is bred. -/
def nextGeneration (cfg : GAConfig) (f : Chromosome → ℤ) (nv : Nat)
    (pop : List Chromosome) (s : Nat) : List Chromosome × Nat :=
  let elites := (sortByFitness f pop).take cfg.eliteCount
  let off := makeOffspring cfg f nv pop (cfg.popSize - cfg.eliteCount) s
  (elites ++ off.1, off.2)

/-- Modelled from the spec: the generation loop (§4.3 step 7). -/
def evolve (cfg : GAConfig) (f : Chromosome → ℤ) (nv : Nat) :
    Nat → List Chromosome → Nat → List Chromosome × Nat
  | 0, pop, s => (pop, s)
  | g + 1, pop, s =>
    let ng := nextGeneration cfg f nv pop s
    evolve cfg f nv g ng.1 ng.2

/-- Reverse the stop segment `[i, j]` of a route. -/
def reverseSegment (r : List Nat) (i j : Nat) : List Nat :=
  r.take i ++ ((r.drop i).take (j + 1 - i)).reverse ++ r.drop (j + 1)

/-- Keep a candidate reversal only when it strictly reduces the route's
distance (§4.3 step 6). -/
def considerReversal (d : Nat → Nat → ℤ) (r acc : List Nat) (i j : Nat) : List Nat :=
  let cand := reverseSegment r i j
  if routeDistance d cand < routeDistance d acc then cand else acc

/-- Best improving reversal with a fixed left endpoint. -/
def bestReversalRow (d : Nat → Nat → ℤ) (r : List Nat) (i : Nat)
    (acc : List Nat) : List Nat :=
  (List.range r.length).foldl (fun a j => considerReversal d r a i j) acc

/-- Modelled from the spec: a single application of 2-opt refinement
(§4.3 step 6) — reverse a contiguous sub-sequence of stops only if doing
so strictly reduces the route's distance. -/
def twoOptStep (d : Nat → Nat → ℤ) (r : List Nat) : List Nat :=
  (List.range r.length).foldl (fun a i => bestReversalRow d r i a) r

/-! Section: Pipeline: optimize (missing from the sources; modelled from the
spec §4.3, §6, §7) -/

/-- Modelled from the spec: a returned route record (§6 output schema)
with the owning vehicle's capacity and carried load kept alongside for
auditing. -/
structure Route where
  vehicleId : Nat
  capacityKg : Nat
  loadKg : Nat
  stops : List Nat
  distanceKm : ℤ
  cost : ℤ
  assignedCargoIds : List Nat
  deriving DecidableEq

/-- Materialize the route of one vehicle from the best chromosome. -/
def mkRoute (d : Nat → Nat → ℤ) (depot : Nat) (v : Vehicle) (cs : List Cargo) : Route :=
  { vehicleId := v.id
    capacityKg := v.capacityKg
    loadKg := cargoWeight cs
    stops := routeStops depot cs
    distanceKm := routeDistance d (routeStops depot cs)
    cost := routeCost d depot v cs
    assignedCargoIds := cs.map Cargo.id }

/-- Modelled from the spec: materialization of the best individual into
concrete `Route` records (§4.3 step 7); a vehicle with no assigned cargo
yields no route. -/
def materializeAux (d : Nat → Nat → ℤ) (depot : Nat) :
    List Vehicle → Nat → Chromosome → List Route
  | [], _, _ => []
  | v :: vs, i, ch =>
    if routeCargos ch i = [] then materializeAux d depot vs (i + 1) ch
    else mkRoute d depot v (routeCargos ch i) :: materializeAux d depot vs (i + 1) ch

/-- Total capacity violation of a chromosome over the fleet tail starting
at index `i`, in kg. -/
def overweightAux : List Vehicle → Nat → Chromosome → Nat
  | [], _, _ => 0
  | v :: vs, i, ch => overweightKg v (routeCargos ch i) + overweightAux vs (i + 1) ch

/-- Modelled from the spec: the input snapshot (§6). -/
structure Snapshot where
  stations : List StationRec
  cargos : List Cargo
  vehicles : List Vehicle
  deriving DecidableEq

/-- Modelled from the spec: the output of a run (§6), extended with the
total capacity-violation penalty of the returned solution so callers can
detect a degraded result (§7). -/
structure OptimizeResult where
  routes : List Route
  deferred : List (Nat × String)
  totalDistanceKm : ℤ
  totalCost : ℤ
  penaltyKg : Nat
  deriving DecidableEq

/-- Modelled from the spec: the candidate fleet of a run (§4.2) — the
rental vehicle is included only when the Capacity Selector activated it. -/
def activeFleetOf (snap : Snapshot) : List Vehicle :=
  if (selectCargos snap.cargos snap.vehicles).2.2 then snap.vehicles
  else snap.vehicles.filter (fun v => !v.isRental)

/-- Modelled from the spec: the best individual found by the seeded
genetic search (§4.3 step 7). -/
def bestChromosome (cfg : GAConfig) (snap : Snapshot) (d : Nat → Nat → ℤ)
    (seed : Nat) (depotId : Nat) : Chromosome :=
  let fleet := activeFleetOf snap
  let fit := fitness cfg d depotId fleet
  let ip := initPopulation cfg.popSize
    (selectCargos snap.cargos snap.vehicles).1 fleet.length seed
  (sortByFitness fit (evolve cfg fit fleet.length cfg.generations ip.1 ip.2).1).headD []

/-- The successful-run result record: materialized routes of the best
individual, deferred list with reason codes, totals and the residual
capacity penalty. -/
def optimizeBody (cfg : GAConfig) (snap : Snapshot) (d : Nat → Nat → ℤ)
    (seed : Nat) (depotId : Nat) : OptimizeResult :=
  let routes := materializeAux d depotId (activeFleetOf snap) 0
    (bestChromosome cfg snap d seed depotId)
  { routes := routes
    deferred := (selectCargos snap.cargos snap.vehicles).2.1.map
      (fun c => (c.id, "capacity_exceeded"))
    totalDistanceKm := (routes.map Route.distanceKm).sum
    totalCost := (routes.map Route.cost).sum
    penaltyKg := overweightAux (activeFleetOf snap) 0
      (bestChromosome cfg snap d seed depotId) }

/-- Modelled from the spec: the full `optimize` pipeline (§4.2–§4.3, §6,
§7): validation, capacity selection (activating the rental fleet only on
overflow), seeded genetic search, and materialization of the best
individual, together with the deferred list and totals. -/
def optimize (cfg : GAConfig) (snap : Snapshot) (d : Nat → Nat → ℤ)
    (seed : Nat) : Except String OptimizeResult :=
  match snap.stations.find? (fun s => s.isDepot) with
  | none => Except.error "no depot station"
  | some depot =>
    if snap.vehicles = [] then Except.error "no vehicles available"
    else if snap.cargos.any (fun c => c.weightKg == 0) then
      Except.error "non-positive cargo weight"
    else if snap.cargos.any
        (fun c => (snap.stations.find? (fun st => st.id == c.destId)).isNone) then
      Except.error "unknown destination station"
    else Except.ok (optimizeBody cfg snap d seed depot.id)

/-- The structural invariant of every chromosome in a run: its cargos are
exactly the selected cargos (as a permutation) and every gene's vehicle
index addresses a vehicle of the active fleet. -/
def chromInv (sel : List Cargo) (nv : Nat) (ch : Chromosome) : Prop :=
  (ch.map Prod.fst).Perm sel ∧ ∀ g ∈ ch, g.2 < nv

theorem cargoWeight_cons (c : Cargo) (cs : List Cargo) :
    cargoWeight (c :: cs) = c.weightKg + cargoWeight cs := by
  simp [cargoWeight]

theorem cargoValue_cons (c : Cargo) (cs : List Cargo) :
    cargoValue (c :: cs) = c.priority + cargoValue cs := by
  simp [cargoValue]

/-- The knapsack selection respects the weight budget. -/
theorem knapSelect_weight_le (cs : List Cargo) (w : Nat) :
    cargoWeight (knapSelect cs w).1 ≤ w := by
  induction cs generalizing w with
  | nil => simp [knapSelect, cargoWeight]
  | cons c cs ih =>
    simp only [knapSelect]
    split
    · split
      · have h1 := ih (w - c.weightKg)
        rw [cargoWeight_cons]
        omega
      · exact ih w
    · exact ih w

/-- Adding one more candidate item never lowers the value the knapsack
selection achieves. -/
theorem knapSelect_value_mono (c : Cargo) (cs : List Cargo) (w : Nat) :
    cargoValue (knapSelect cs w).1 ≤ cargoValue (knapSelect (c :: cs) w).1 := by
  simp only [knapSelect]
  split
  · split
    · next hlt => exact Nat.le_of_lt hlt
    · exact Nat.le_refl _
  · exact Nat.le_refl _

/-- Knapsack optimality: no sub-collection of the candidate items that fits
the weight budget has larger total value than the selection. -/
theorem knapSelect_optimal (cs : List Cargo) (w : Nat) (sub : List Cargo)
    (hsub : sub.Sublist cs) (hw : cargoWeight sub ≤ w) :
    cargoValue sub ≤ cargoValue (knapSelect cs w).1 := by
  induction cs generalizing w sub with
  | nil =>
    cases hsub
    simp [knapSelect, cargoValue]
  | cons c cs ih =>
    cases hsub with
    | cons _ h =>
      exact Nat.le_trans (ih w sub h hw) (knapSelect_value_mono c cs w)
    | cons₂ _ h =>
      next sub' =>
      rw [cargoWeight_cons] at hw
      have hcw : c.weightKg ≤ w := Nat.le_trans (Nat.le_add_right _ _) hw
      have hsub' : cargoWeight sub' ≤ w - c.weightKg := by omega
      have hval : cargoValue (c :: sub') ≤
          cargoValue (c :: (knapSelect cs (w - c.weightKg)).1) := by
        rw [cargoValue_cons, cargoValue_cons]
        exact Nat.add_le_add_left (ih (w - c.weightKg) sub' h hsub') _
      simp only [knapSelect, if_pos hcw]
      split
      · exact hval
      · next hnot =>
        exact Nat.le_trans hval (Nat.le_of_not_lt hnot)

/-- The selected and deferred lists together are a permutation of the
input list: the knapsack drops nothing and invents nothing. -/
theorem knapSelect_perm (cs : List Cargo) (w : Nat) :
    ((knapSelect cs w).1 ++ (knapSelect cs w).2).Perm cs := by
  induction cs generalizing w with
  | nil => simp [knapSelect]
  | cons c cs ih =>
    simp only [knapSelect]
    split
    · split
      · simpa using (ih (w - c.weightKg)).cons c
      · exact (List.perm_middle).trans ((ih w).cons c)
    · exact (List.perm_middle).trans ((ih w).cons c)

/-- C8: When total pending cargo weight exceeds base-fleet capacity, the
Capacity Selector's chosen subset has total weight at most the
base-plus-rental capacity bound, and its total priority value is greater
than or equal to that of every other subset of the pending cargos whose
total weight is at most the chosen subset's total weight. -/
theorem capacity_selector_knapsack_optimal (pending : List Cargo)
    (fleet : List Vehicle) (hover : baseCapacity fleet < cargoWeight pending) :
    cargoWeight (selectCargos pending fleet).1 ≤ fleetCapacity fleet ∧
      ∀ sub : List Cargo, sub.Sublist pending →
        cargoWeight sub ≤ cargoWeight (selectCargos pending fleet).1 →
        cargoValue sub ≤ cargoValue (selectCargos pending fleet).1 := by
  have hsel : (selectCargos pending fleet).1 =
      (knapSelect pending (fleetCapacity fleet)).1 := by
    simp [selectCargos, if_neg (Nat.not_le.mpr hover)]
  rw [hsel]
  refine ⟨knapSelect_weight_le pending (fleetCapacity fleet), ?_⟩
  intro sub hsub hw
  exact knapSelect_optimal pending (fleetCapacity fleet) sub hsub
    (Nat.le_trans hw (knapSelect_weight_le pending (fleetCapacity fleet)))

/-- C8 witness: a concrete overloaded day.  Two cargos of 5 kg and 4 kg
against a 3 kg base vehicle and a 4 kg rental; the selector keeps the
more valuable feasible subset, and the singleton `[c2]` with no larger
weight has no larger value. -/
theorem capacity_selector_knapsack_optimal_witness :
    cargoValue [Cargo.mk 2 4 2 0] ≤
      cargoValue (selectCargos [Cargo.mk 1 5 3 0, Cargo.mk 2 4 2 0]
        [Vehicle.mk 1 3 1 false 0, Vehicle.mk 2 4 1 true 200]).1 :=
  (capacity_selector_knapsack_optimal
      [Cargo.mk 1 5 3 0, Cargo.mk 2 4 2 0]
      [Vehicle.mk 1 3 1 false 0, Vehicle.mk 2 4 1 true 200]
      (by decide)).2 [Cargo.mk 2 4 2 0] (by decide) (by decide)

/-! Section: Tracking number lemmas (C10) -/

theorem base36Char_toUpper_mem (d : Fin 36) : (base36Char d).toUpper ∈ upperBase36 := by
  revert d
  decide

theorem digitChar_isDigit {d : Nat} (hd : d < 10) : (Nat.digitChar d).isDigit = true := by
  interval_cases d <;> decide

theorem decimalRepr_length_ge (now : Nat) (h : 100000 ≤ now) :
    6 ≤ (decimalRepr now).length := by
  have hlen : (decimalRepr now).length = (Nat.digits 10 now).length := by
    simp [decimalRepr]
  rw [hlen]
  by_contra hc
  have h5 : (Nat.digits 10 now).length ≤ 5 := by omega
  have hlt : now < 10 ^ (Nat.digits 10 now).length :=
    Nat.lt_base_pow_length_digits (by norm_num)
  have : (10 : Nat) ^ (Nat.digits 10 now).length ≤ 10 ^ 5 :=
    Nat.pow_le_pow_right (by norm_num) h5
  omega

theorem decimalRepr_digits (now : Nat) {c : Char} (hc : c ∈ decimalRepr now) :
    c.isDigit = true := by
  simp only [decimalRepr, List.mem_map, List.mem_reverse] at hc
  obtain ⟨d, hd, rfl⟩ := hc
  exact digitChar_isDigit (Nat.digits_lt_base (by norm_num) hd)

/-- C10: Every string returned by `generateTrackingNumber` is the prefix
`KOC`, then exactly the last six decimal digits of the current timestamp,
then an uppercase base-36 fragment of at most four characters; its total
length is between 9 and 13. -/
theorem generateTrackingNumber_shape (now : Nat) (randDigits : List (Fin 36))
    (h : 100000 ≤ now) :
    ∃ ts rand : List Char,
      (generateTrackingNumber now randDigits).data = "KOC".data ++ ts ++ rand ∧
      ts = lastSix (decimalRepr now) ∧ ts.length = 6 ∧
      (∀ c ∈ ts, c.isDigit = true) ∧
      rand.length ≤ 4 ∧ (∀ c ∈ rand, c ∈ upperBase36) ∧
      9 ≤ (generateTrackingNumber now randDigits).length ∧
      (generateTrackingNumber now randDigits).length ≤ 13 := by
  refine ⟨lastSix (decimalRepr now),
    (randDigits.take 4).map (fun d => (base36Char d).toUpper), ?_, rfl, ?_, ?_, ?_, ?_, ?_, ?_⟩
  · simp [generateTrackingNumber]
  · have h6 := decimalRepr_length_ge now h
    simp only [lastSix, List.length_drop]
    omega
  · intro c hc
    exact decimalRepr_digits now (List.mem_of_mem_drop hc)
  · calc (List.map (fun d => (base36Char d).toUpper) (randDigits.take 4)).length
        = (randDigits.take 4).length := List.length_map _ _
      _ ≤ 4 := List.length_take_le 4 randDigits
  · intro c hc
    simp only [List.mem_map] at hc
    obtain ⟨d, _, rfl⟩ := hc
    exact base36Char_toUpper_mem d
  · have h6 : (lastSix (decimalRepr now)).length = 6 := by
      have := decimalRepr_length_ge now h
      simp only [lastSix, List.length_drop]
      omega
    have hr : (List.map (fun d => (base36Char d).toUpper) (randDigits.take 4)).length ≤ 4 := by
      calc (List.map (fun d => (base36Char d).toUpper) (randDigits.take 4)).length
          = (randDigits.take 4).length := List.length_map _ _
        _ ≤ 4 := List.length_take_le 4 randDigits
    simp only [generateTrackingNumber, String.length, String.mk, List.length_append, h6,
      List.length_cons, List.length_nil]
    omega
  · have h6 : (lastSix (decimalRepr now)).length = 6 := by
      have := decimalRepr_length_ge now h
      simp only [lastSix, List.length_drop]
      omega
    have hr : (List.map (fun d => (base36Char d).toUpper) (randDigits.take 4)).length ≤ 4 := by
      calc (List.map (fun d => (base36Char d).toUpper) (randDigits.take 4)).length
          = (randDigits.take 4).length := List.length_map _ _
        _ ≤ 4 := List.length_take_le 4 randDigits
    simp only [generateTrackingNumber, String.length, String.mk, List.length_append, h6,
      List.length_cons, List.length_nil]
    omega

/-- C10 witness: a realistic 13-digit millisecond timestamp and two random
base-36 digits. -/
theorem generateTrackingNumber_shape_witness :
    ∃ ts rand : List Char,
      (generateTrackingNumber 1736500000000 [⟨10, by decide⟩, ⟨20, by decide⟩]).data =
        "KOC".data ++ ts ++ rand ∧
      ts = lastSix (decimalRepr 1736500000000) ∧ ts.length = 6 ∧
      (∀ c ∈ ts, c.isDigit = true) ∧
      rand.length ≤ 4 ∧ (∀ c ∈ rand, c ∈ upperBase36) ∧
      9 ≤ (generateTrackingNumber 1736500000000 [⟨10, by decide⟩, ⟨20, by decide⟩]).length ∧
      (generateTrackingNumber 1736500000000 [⟨10, by decide⟩, ⟨20, by decide⟩]).length ≤ 13 :=
  generateTrackingNumber_shape 1736500000000 [⟨10, by decide⟩, ⟨20, by decide⟩] (by decide)

/-! Section: Haversine lemmas (C2) -/

theorem sin_half_sq (x : ℝ) :
    Real.sin (x / 2) * Real.sin (x / 2) = (1 - Real.cos x) / 2 := by
  have h := Real.sin_sq_eq_half_sub (x / 2)
  have h2 : 2 * (x / 2) = x := by ring
  rw [h2] at h
  nlinarith [h]

theorem havA_eq (lat1 lon1 lat2 lon2 : ℝ) :
    havA lat1 lon1 lat2 lon2 = (1 - sphereCos lat1 lon1 lat2 lon2) / 2 := by
  have e1 : (lat2 - lat1) * Real.pi / 180 =
      lat2 * Real.pi / 180 - lat1 * Real.pi / 180 := by ring
  simp only [havA, sphereCos]
  rw [e1]
  have h1 := sin_half_sq (lat2 * Real.pi / 180 - lat1 * Real.pi / 180)
  have h2 := sin_half_sq ((lon2 - lon1) * Real.pi / 180)
  have h3 := Real.cos_sub (lat2 * Real.pi / 180) (lat1 * Real.pi / 180)
  linear_combination h1 +
    (Real.cos (lat1 * Real.pi / 180) * Real.cos (lat2 * Real.pi / 180)) * h2 -
    (1 / 2) * h3

theorem abs_sphereCos_le_one (lat1 lon1 lat2 lon2 : ℝ) :
    -1 ≤ sphereCos lat1 lon1 lat2 lon2 ∧ sphereCos lat1 lon1 lat2 lon2 ≤ 1 := by
  simp only [sphereCos]
  have p1 := Real.sin_sq_add_cos_sq (lat1 * Real.pi / 180)
  have p2 := Real.sin_sq_add_cos_sq (lat2 * Real.pi / 180)
  have t1 := Real.neg_one_le_cos ((lon2 - lon1) * Real.pi / 180)
  have t2 := Real.cos_le_one ((lon2 - lon1) * Real.pi / 180)
  have ht : (0:ℝ) ≤ 1 - Real.cos ((lon2 - lon1) * Real.pi / 180) ^ 2 := by nlinarith
  constructor
  · nlinarith [sq_nonneg (Real.sin (lat1 * Real.pi / 180) + Real.sin (lat2 * Real.pi / 180)),
      sq_nonneg (Real.cos (lat1 * Real.pi / 180) +
        Real.cos (lat2 * Real.pi / 180) * Real.cos ((lon2 - lon1) * Real.pi / 180)),
      mul_nonneg (sq_nonneg (Real.cos (lat2 * Real.pi / 180))) ht]
  · nlinarith [sq_nonneg (Real.sin (lat1 * Real.pi / 180) - Real.sin (lat2 * Real.pi / 180)),
      sq_nonneg (Real.cos (lat1 * Real.pi / 180) -
        Real.cos (lat2 * Real.pi / 180) * Real.cos ((lon2 - lon1) * Real.pi / 180)),
      mul_nonneg (sq_nonneg (Real.cos (lat2 * Real.pi / 180))) ht]

theorem havA_mem (lat1 lon1 lat2 lon2 : ℝ) :
    0 ≤ havA lat1 lon1 lat2 lon2 ∧ havA lat1 lon1 lat2 lon2 ≤ 1 := by
  obtain ⟨hl, hr⟩ := abs_sphereCos_le_one lat1 lon1 lat2 lon2
  rw [havA_eq]
  constructor <;> linarith

theorem atan2_sqrt_eq_arcsin {a : ℝ} (h0 : 0 ≤ a) (h1 : a ≤ 1) :
    atan2 (Real.sqrt a) (Real.sqrt (1 - a)) = Real.arcsin (Real.sqrt a) := by
  rcases eq_or_lt_of_le h1 with heq | hlt
  · subst heq
    simp only [atan2, sub_self, Real.sqrt_zero, Real.sqrt_one]
    norm_num [Real.arcsin_one]
  · have hx : 0 < Real.sqrt (1 - a) := Real.sqrt_pos.mpr (by linarith)
    have hs0 : 0 ≤ Real.sqrt a := Real.sqrt_nonneg a
    have hs1 : Real.sqrt a < 1 := by
      have := Real.sqrt_lt_sqrt h0 hlt
      simpa using this
    rw [atan2, if_pos hx]
    rw [Real.arcsin_eq_arctan (by constructor <;> [linarith; exact hs1])]
    congr 2
    rw [Real.sq_sqrt h0]

theorem two_arcsin_sqrt_eq_arccos {a : ℝ} (h0 : 0 ≤ a) (h1 : a ≤ 1) :
    2 * Real.arcsin (Real.sqrt a) = Real.arccos (1 - 2 * a) := by
  have hs0 : 0 ≤ Real.sqrt a := Real.sqrt_nonneg a
  have hs1 : Real.sqrt a ≤ 1 := by
    have := Real.sqrt_le_sqrt h1
    simpa using this
  have ht0 : 0 ≤ Real.arcsin (Real.sqrt a) := Real.arcsin_nonneg.mpr hs0
  have htp : Real.arcsin (Real.sqrt a) ≤ Real.pi / 2 := Real.arcsin_le_pi_div_two _
  have hsin : Real.sin (Real.arcsin (Real.sqrt a)) = Real.sqrt a :=
    Real.sin_arcsin (by linarith) hs1
  have hsq : Real.sin (Real.arcsin (Real.sqrt a)) ^ 2 = a := by
    rw [hsin]; exact Real.sq_sqrt h0
  have hcos : Real.cos (2 * Real.arcsin (Real.sqrt a)) = 1 - 2 * a := by
    rw [Real.cos_two_mul]
    have := Real.sin_sq_add_cos_sq (Real.arcsin (Real.sqrt a))
    nlinarith [hsq]
  calc 2 * Real.arcsin (Real.sqrt a)
      = Real.arccos (Real.cos (2 * Real.arcsin (Real.sqrt a))) :=
        (Real.arccos_cos (by linarith) (by linarith)).symm
    _ = Real.arccos (1 - 2 * a) := by rw [hcos]

theorem haversineDistance_unfold (lat1 lon1 lat2 lon2 : ℝ) :
    haversineDistance lat1 lon1 lat2 lon2 =
      6371 * (2 * atan2 (Real.sqrt (havA lat1 lon1 lat2 lon2))
        (Real.sqrt (1 - havA lat1 lon1 lat2 lon2))) := rfl

/-- The source computation equals `R · (central angle)`: the spherical
geodesic distance. -/
theorem haversineDistance_eq_arccos (lat1 lon1 lat2 lon2 : ℝ) :
    haversineDistance lat1 lon1 lat2 lon2 =
      6371 * Real.arccos (sphereCos lat1 lon1 lat2 lon2) := by
  obtain ⟨h0, h1⟩ := havA_mem lat1 lon1 lat2 lon2
  rw [haversineDistance_unfold, atan2_sqrt_eq_arcsin h0 h1,
    two_arcsin_sqrt_eq_arccos h0 h1]
  have : 1 - 2 * havA lat1 lon1 lat2 lon2 = sphereCos lat1 lon1 lat2 lon2 := by
    rw [havA_eq]; ring
  rw [this]

/-- C2: `haversineDistance` computes the great-circle distance in km per
the standard Haversine formula with Earth radius 6371 km, and is
deterministic: the same four arguments always produce the same value
(the embedding is a pure function, so there is no state to mutate). -/
theorem haversineDistance_standard_and_deterministic (lat1 lon1 lat2 lon2 : ℝ) :
    haversineDistance lat1 lon1 lat2 lon2 = haversineFormulaStd lat1 lon1 lat2 lon2 ∧
      haversineDistance lat1 lon1 lat2 lon2 = haversineDistance lat1 lon1 lat2 lon2 := by
  refine ⟨?_, rfl⟩
  obtain ⟨h0, h1⟩ := havA_mem lat1 lon1 lat2 lon2
  rw [haversineDistance_unfold, atan2_sqrt_eq_arcsin h0 h1, haversineFormulaStd]
  have harg : Real.sin ((lat2 - lat1) * Real.pi / 180 / 2) ^ 2 +
      Real.cos (lat1 * Real.pi / 180) * Real.cos (lat2 * Real.pi / 180) *
      Real.sin ((lon2 - lon1) * Real.pi / 180 / 2) ^ 2 = havA lat1 lon1 lat2 lon2 := by
    simp only [havA]
    ring
  rw [harg]
  ring

/-! Section: OSRM theorems (C9, C1) -/

/-- C9: `getOSRMRoute` never throws: it returns `none` for a missing or
too-short coordinate list, for a failed fetch/parse, for a response code
other than `"Ok"`, and for an empty `routes` array; on success it returns
the first route's distance converted from metres to km and its geometry
swapped from `[lng, lat]` to `[lat, lng]`. -/
theorem getOSRMRoute_cases :
    (∀ f, getOSRMRoute none f = none) ∧
    (∀ coords f, coords.length < 2 → getOSRMRoute (some coords) f = none) ∧
    (∀ coords e, getOSRMRoute (some coords) (Except.error e) = none) ∧
    (∀ coords data, data.code ≠ "Ok" →
      getOSRMRoute (some coords) (Except.ok data) = none) ∧
    (∀ coords data, data.routes = [] →
      getOSRMRoute (some coords) (Except.ok data) = none) ∧
    (∀ coords data r rest, 2 ≤ coords.length → data.code = "Ok" →
      data.routes = r :: rest →
      getOSRMRoute (some coords) (Except.ok data) =
        some ⟨r.geometry.map (fun c => (c.2, c.1)), r.distance / 1000, r.duration⟩) := by
  refine ⟨fun f => rfl, ?_, ?_, ?_, ?_, ?_⟩
  · intro coords f h
    simp [getOSRMRoute, if_pos h]
  · intro coords e
    by_cases hl : coords.length < 2 <;> simp [getOSRMRoute, hl]
  · intro coords data hcode
    by_cases hl : coords.length < 2 <;> simp [getOSRMRoute, hl, hcode]
  · intro coords data hroutes
    by_cases hl : coords.length < 2 <;> simp [getOSRMRoute, hl, hroutes]
  · intro coords data r rest hlen hcode hroutes
    have hl : ¬ coords.length < 2 := by omega
    simp [getOSRMRoute, hl, hcode, hroutes]

/-- C9 witness: a two-point request with a well-formed `Ok` response. -/
theorem getOSRMRoute_cases_witness :
    getOSRMRoute (some [((0:ℝ), (0:ℝ)), ((1:ℝ), (1:ℝ))])
      (Except.ok ⟨"Ok", [⟨2000, 60, [((29:ℝ), (40:ℝ))]⟩]⟩) =
      some ⟨([((29:ℝ), (40:ℝ))]).map (fun c => (c.2, c.1)),
        (2000:ℝ) / 1000, 60⟩ :=
  getOSRMRoute_cases.2.2.2.2.2 [((0:ℝ), (0:ℝ)), ((1:ℝ), (1:ℝ))]
    ⟨"Ok", [⟨2000, 60, [((29:ℝ), (40:ℝ))]⟩]⟩ ⟨2000, 60, [((29:ℝ), (40:ℝ))]⟩ []
    (by simp) rfl rfl

/-- C1 counterexample: when the OSRM fetch fails on the two-waypoint list
`[(0,0), (0,1)]`, the fallback result of `drawOSRMRoute` carries no
distance at all (`distance = null`); in particular it is not the
Haversine estimate scaled by the 1.35 road factor that the claim
describes.  The road factor 1.35 appears nowhere in `main.js`. -/
theorem drawOSRMRoute_no_haversine_fallback :
    (drawOSRMRoute [((0:ℝ), (0:ℝ)), ((0:ℝ), (1:ℝ))] (Except.error ())).distance = none ∧
    (drawOSRMRoute [((0:ℝ), (0:ℝ)), ((0:ℝ), (1:ℝ))] (Except.error ())).distance ≠
      some (1.35 * haversineDistance 0 0 0 1) := by
  have h : (drawOSRMRoute [((0:ℝ), (0:ℝ)), ((0:ℝ), (1:ℝ))]
      (Except.error ())).distance = none := by
    simp [drawOSRMRoute, getOSRMRoute]
  refine ⟨h, ?_⟩
  rw [h]
  exact fun hc => Option.noConfusion hc

/-- C1 (amended): when OSRM fails or is unavailable, `drawOSRMRoute` does
not abort: it falls back to drawing a dashed straight polyline through the
given waypoints and returns `null` distance and duration, so callers can
distinguish the fallback from a road-derived result (which comes back as a
solid polyline with `some` distance and duration). -/
theorem drawOSRMRoute_fallback (waypoints : List (ℝ × ℝ))
    (fetched : Except Unit OSRMResponse) :
    (getOSRMRoute (some waypoints) fetched = none →
      drawOSRMRoute waypoints fetched = ⟨waypoints, true, none, none⟩) ∧
    ∀ route, getOSRMRoute (some waypoints) fetched = some route →
      0 < route.coordinates.length →
      drawOSRMRoute waypoints fetched =
        ⟨route.coordinates, false, some route.distance, some route.duration⟩ := by
  constructor
  · intro h
    simp [drawOSRMRoute, h]
  · intro r h hlen
    simp [drawOSRMRoute, h, hlen]

/-- C1 witness: a failed fetch on a concrete waypoint list produces the
dashed straight-line fallback with `null` distance and duration. -/
theorem drawOSRMRoute_fallback_witness :
    drawOSRMRoute [((10:ℝ), (20:ℝ)), ((11:ℝ), (21:ℝ))] (Except.error ()) =
      ⟨[((10:ℝ), (20:ℝ)), ((11:ℝ), (21:ℝ))], true, none, none⟩ :=
  (drawOSRMRoute_fallback [((10:ℝ), (20:ℝ)), ((11:ℝ), (21:ℝ))]
    (Except.error ())).1 (by simp [getOSRMRoute])

/-! Section: Spherical triangle inequality (towards C3)

The great-circle distance `R · arccos ⟪u, v⟫` is a metric; the triangle
inequality is derived from the Gram-determinant identity
`det G = (a · (b × c))² ≥ 0` for three vectors in ℝ³. -/

theorem gram_triple_identity (a1 a2 a3 b1 b2 b3 c1 c2 c3 : ℝ) :
    (a1^2 + a2^2 + a3^2) * ((b1^2 + b2^2 + b3^2) * (c1^2 + c2^2 + c3^2))
      + 2 * ((a1*b1 + a2*b2 + a3*b3) *
        ((b1*c1 + b2*c2 + b3*c3) * (a1*c1 + a2*c2 + a3*c3)))
      - (a1^2 + a2^2 + a3^2) * (b1*c1 + b2*c2 + b3*c3)^2
      - (b1^2 + b2^2 + b3^2) * (a1*c1 + a2*c2 + a3*c3)^2
      - (c1^2 + c2^2 + c3^2) * (a1*b1 + a2*b2 + a3*b3)^2
    = (a1*(b2*c3 - b3*c2) - a2*(b1*c3 - b3*c1) + a3*(b1*c2 - b2*c1))^2 := by
  ring

theorem gram_unit {a1 a2 a3 b1 b2 b3 c1 c2 c3 : ℝ}
    (ha : a1^2 + a2^2 + a3^2 = 1) (hb : b1^2 + b2^2 + b3^2 = 1)
    (hc : c1^2 + c2^2 + c3^2 = 1) :
    0 ≤ 1 + 2 * ((a1*b1 + a2*b2 + a3*b3) *
        ((b1*c1 + b2*c2 + b3*c3) * (a1*c1 + a2*c2 + a3*c3)))
      - (b1*c1 + b2*c2 + b3*c3)^2
      - (a1*c1 + a2*c2 + a3*c3)^2
      - (a1*b1 + a2*b2 + a3*b3)^2 := by
  have hid := gram_triple_identity a1 a2 a3 b1 b2 b3 c1 c2 c3
  rw [ha, hb, hc] at hid
  nlinarith [hid, sq_nonneg (a1*(b2*c3 - b3*c2) - a2*(b1*c3 - b3*c1) +
    a3*(b1*c2 - b2*c1))]

theorem sph_unit (lat lon : ℝ) :
    sphX lat lon ^ 2 + sphY lat lon ^ 2 + sphZ lat lon ^ 2 = 1 := by
  simp only [sphX, sphY, sphZ]
  have h1 := Real.sin_sq_add_cos_sq (lat * Real.pi / 180)
  have h2 := Real.sin_sq_add_cos_sq (lon * Real.pi / 180)
  nlinarith [h1, h2]

theorem dot_eq_sphereCos (lat1 lon1 lat2 lon2 : ℝ) :
    sphX lat1 lon1 * sphX lat2 lon2 + sphY lat1 lon1 * sphY lat2 lon2 +
      sphZ lat1 lon1 * sphZ lat2 lon2 = sphereCos lat1 lon1 lat2 lon2 := by
  have e : (lon2 - lon1) * Real.pi / 180 =
      lon2 * Real.pi / 180 - lon1 * Real.pi / 180 := by ring
  simp only [sphX, sphY, sphZ, sphereCos]
  rw [e, Real.cos_sub]
  ring

/-- Triangle inequality for `arccos` of pairwise inner products of unit
vectors, in scalar form: the three cosines of a spherical triangle. -/
theorem arccos_triangle {c1 c2 c3 : ℝ}
    (h1l : -1 ≤ c1) (h1r : c1 ≤ 1) (h2l : -1 ≤ c2) (h2r : c2 ≤ 1)
    (h3l : -1 ≤ c3) (h3r : c3 ≤ 1)
    (hgram : 0 ≤ 1 + 2 * (c1 * (c2 * c3)) - c2^2 - c3^2 - c1^2) :
    Real.arccos c3 ≤ Real.arccos c1 + Real.arccos c2 := by
  by_cases hp : Real.pi ≤ Real.arccos c1 + Real.arccos c2
  · exact le_trans (Real.arccos_le_pi c3) hp
  push_neg at hp
  have hα0 : 0 ≤ Real.arccos c1 := Real.arccos_nonneg _
  have hβ0 : 0 ≤ Real.arccos c2 := Real.arccos_nonneg _
  have hcosαβ : Real.cos (Real.arccos c1 + Real.arccos c2) =
      c1 * c2 - Real.sqrt (1 - c1^2) * Real.sqrt (1 - c2^2) := by
    rw [Real.cos_add, Real.cos_arccos h1l h1r, Real.cos_arccos h2l h2r,
      Real.sin_arccos, Real.sin_arccos]
  have h1sq : (0:ℝ) ≤ 1 - c1^2 := by nlinarith
  have hsq : (c3 - c1*c2)^2 ≤ (1 - c1^2) * (1 - c2^2) := by nlinarith [hgram]
  have key : Real.cos (Real.arccos c1 + Real.arccos c2) ≤ c3 := by
    rw [hcosαβ]
    have hprod : Real.sqrt (1 - c1^2) * Real.sqrt (1 - c2^2) =
        Real.sqrt ((1 - c1^2) * (1 - c2^2)) := (Real.sqrt_mul h1sq _).symm
    have habs : |c3 - c1*c2| ≤ Real.sqrt ((1 - c1^2) * (1 - c2^2)) := by
      rw [← Real.sqrt_sq_eq_abs]
      exact Real.sqrt_le_sqrt hsq
    have hcmp := (abs_le.mp habs).1
    rw [hprod]
    linarith
  have hanti : Real.arccos c3 ≤ Real.arccos (Real.cos (Real.arccos c1 + Real.arccos c2)) := by
    have hmono := Real.monotone_arcsin key
    rw [Real.arccos_eq_pi_div_two_sub_arcsin, Real.arccos_eq_pi_div_two_sub_arcsin]
    linarith
  calc Real.arccos c3 ≤ Real.arccos (Real.cos (Real.arccos c1 + Real.arccos c2)) := hanti
    _ = Real.arccos c1 + Real.arccos c2 :=
        Real.arccos_cos (by linarith) (le_of_lt hp)

/-- The central-angle Gram inequality for three latitude/longitude points. -/
theorem sphereCos_gram (la1 lo1 la2 lo2 la3 lo3 : ℝ) :
    0 ≤ 1 + 2 * (sphereCos la1 lo1 la2 lo2 *
        (sphereCos la2 lo2 la3 lo3 * sphereCos la1 lo1 la3 lo3))
      - (sphereCos la2 lo2 la3 lo3)^2
      - (sphereCos la1 lo1 la3 lo3)^2
      - (sphereCos la1 lo1 la2 lo2)^2 := by
  rw [← dot_eq_sphereCos la1 lo1 la2 lo2, ← dot_eq_sphereCos la2 lo2 la3 lo3,
    ← dot_eq_sphereCos la1 lo1 la3 lo3]
  exact gram_unit (sph_unit la1 lo1) (sph_unit la2 lo2) (sph_unit la3 lo3)

/-- Triangle inequality for the Haversine distance. -/
theorem haversineDistance_triangle (la1 lo1 la2 lo2 la3 lo3 : ℝ) :
    haversineDistance la1 lo1 la3 lo3 ≤
      haversineDistance la1 lo1 la2 lo2 + haversineDistance la2 lo2 la3 lo3 := by
  rw [haversineDistance_eq_arccos, haversineDistance_eq_arccos,
    haversineDistance_eq_arccos]
  obtain ⟨h1l, h1r⟩ := abs_sphereCos_le_one la1 lo1 la2 lo2
  obtain ⟨h2l, h2r⟩ := abs_sphereCos_le_one la2 lo2 la3 lo3
  obtain ⟨h3l, h3r⟩ := abs_sphereCos_le_one la1 lo1 la3 lo3
  have := arccos_triangle h1l h1r h2l h2r h3l h3r (sphereCos_gram la1 lo1 la2 lo2 la3 lo3)
  nlinarith [this]

/-- The Haversine distance is nonnegative. -/
theorem haversineDistance_nonneg (la1 lo1 la2 lo2 : ℝ) :
    0 ≤ haversineDistance la1 lo1 la2 lo2 := by
  rw [haversineDistance_eq_arccos]
  have := Real.arccos_nonneg (sphereCos la1 lo1 la2 lo2)
  nlinarith [this]

/-- The Haversine distance of a point to itself is zero. -/
theorem haversineDistance_self (la lo : ℝ) : haversineDistance la lo la lo = 0 := by
  rw [haversineDistance_eq_arccos]
  have h : sphereCos la lo la lo = 1 := by
    simp only [sphereCos, sub_self, zero_mul, zero_div, Real.cos_zero, mul_one]
    have := Real.sin_sq_add_cos_sq (la * Real.pi / 180)
    nlinarith [this]
  rw [h, Real.arccos_one, mul_zero]

/-! Section: A* lemmas (C3) -/

theorem heuristic_eq_edgeWeight (p d : GeoStation) : heuristic p d = edgeWeight p d := rfl

theorem heuristic_self (d : GeoStation) : heuristic d d = 0 := by
  simp only [heuristic, haversineDistance_self, mul_zero]

theorem edgeWeight_nonneg (p q : GeoStation) : 0 ≤ edgeWeight p q := by
  have := haversineDistance_nonneg p.lat p.lng q.lat q.lng
  simp only [edgeWeight]
  nlinarith

theorem edgeWeight_triangle (p q r : GeoStation) :
    edgeWeight p r ≤ edgeWeight p q + edgeWeight q r := by
  have := haversineDistance_triangle p.lat p.lng q.lat q.lng r.lat r.lng
  simp only [edgeWeight]
  nlinarith

theorem pathCost_nonneg (l : List GeoStation) : 0 ≤ pathCost l := by
  induction l with
  | nil => simp [pathCost]
  | cons p tail ih =>
    cases tail with
    | nil => simp [pathCost]
    | cons q rest =>
      simp only [pathCost]
      have := edgeWeight_nonneg p q
      linarith

/-- Any path from `n` to `last` costs at least the direct edge weight:
the edge weights satisfy the triangle inequality. -/
theorem pathCost_ge_direct (l : List GeoStation) :
    ∀ n last : GeoStation, l.head? = some n → l.getLast? = some last →
      edgeWeight n last ≤ pathCost l := by
  induction l with
  | nil => intro n last h; simp at h
  | cons p tail ih =>
    intro n last hh hl
    simp only [List.head?_cons, Option.some.injEq] at hh
    subst hh
    cases tail with
    | nil =>
      simp only [List.getLast?_singleton, Option.some.injEq] at hl
      subst hl
      have hz : edgeWeight p p = 0 := by
        simp [edgeWeight, haversineDistance_self]
      simp [pathCost, hz]
    | cons q rest =>
      rw [List.getLast?_cons_cons] at hl
      have h2 := ih q last (by simp) hl
      simp only [pathCost]
      have h3 := edgeWeight_triangle p q last
      linarith

theorem better_asymm {dest : GeoStation} {x y : SearchEntry}
    (h1 : better dest x y) (h2 : better dest y x) : False := by
  rcases h1 with h1 | ⟨h1e, h1h⟩ <;> rcases h2 with h2 | ⟨h2e, h2h⟩ <;> linarith

/-- When one entry of the open set is strictly better than every other
entry, `extractMin` pops exactly that entry. -/
theorem extractMin_fst_eq {dest : GeoStation} (u : SearchEntry) :
    ∀ (es : List SearchEntry) (e : SearchEntry), u ∈ e :: es →
      (∀ y ∈ e :: es, y ≠ u → better dest u y) →
      (extractMin dest e es).1 = u := by
  intro es
  induction es with
  | nil =>
    intro e hu _
    simp only [List.mem_singleton] at hu
    simp [extractMin, hu]
  | cons x xs ih =>
    intro e hu hall
    simp only [extractMin]
    split
    · next hbx =>
      apply ih x ?_ ?_
      · rcases List.mem_cons.mp hu with rfl | hu2
        · by_cases hxu : x = u
          · subst hxu
            exact absurd hbx (fun h => better_asymm h h)
          · have hb := hall x (by simp) hxu
            exact absurd hb (fun h => better_asymm h hbx)
        · exact hu2
      · intro y hy hyu
        rcases List.mem_cons.mp hy with rfl | hy2
        · exact hall y (by simp) hyu
        · exact hall y (by simp [hy2]) hyu
    · next hbx =>
      apply ih e ?_ ?_
      · rcases List.mem_cons.mp hu with rfl | hu2
        · exact List.mem_cons_self u xs
        · rcases List.mem_cons.mp hu2 with rfl | hu3
          · by_cases heu : e = u
            · rw [heu]
              exact List.mem_cons_self u xs
            · have hb := hall e (by simp) heu
              exact absurd hb hbx
          · exact List.mem_cons_of_mem e hu3
      · intro y hy hyu
        rcases List.mem_cons.mp hy with rfl | hy2
        · exact hall y (by simp) hyu
        · exact hall y (by simp [hy2]) hyu

/-- A* run with coinciding start and destination: the start entry is
popped first and is the goal. -/
theorem aStar_self (st : List GeoStation) (s : GeoStation) :
    aStar st s s = some ([s], 0) := by
  have hnode : (extractMin s ⟨s, 0, [s]⟩ []).1 = ⟨s, 0, [s]⟩ := rfl
  simp only [aStar, aStarLoop, hnode]
  simp

/-- The first A* iteration on a proper query pops the start entry and
expands it. -/
theorem aStar_step1 (st : List GeoStation) (start dest : GeoStation)
    (hne : start ≠ dest) :
    aStar st start dest =
      aStarLoop st dest st.length (expandNode st [] ⟨start, 0, [start]⟩) [start] := by
  have hnode : (extractMin dest ⟨start, 0, [start]⟩ []).1 = ⟨start, 0, [start]⟩ := rfl
  have hrest : (extractMin dest ⟨start, 0, [start]⟩ []).2 = [] := rfl
  simp only [aStar, aStarLoop, hnode, hrest]
  rw [hnode]
  dsimp only
  rw [if_neg hne]
  simp

/-- On a station set whose members sit at pairwise distinct positions, the
second A* iteration pops the destination with the direct edge as its
cost-so-far: the fallback-scaled Haversine satisfies the triangle
inequality, so no detour beats the direct edge, and the `h`-tie-break
prefers the goal. -/
theorem aStar_finds_direct (st : List GeoStation) (start dest : GeoStation)
    (hs : start ∈ st) (hd : dest ∈ st) (hne : start ≠ dest)
    (hpos : ∀ p ∈ st, ∀ q ∈ st, p ≠ q →
      0 < haversineDistance p.lat p.lng q.lat q.lng) :
    aStar st start dest = some ([start, dest], edgeWeight start dest) := by
  rw [aStar_step1 st start dest hne]
  have hmem : (⟨dest, 0 + edgeWeight start dest, [dest, start]⟩ : SearchEntry) ∈
      expandNode st [] ⟨start, 0, [start]⟩ := by
    simp only [expandNode, List.mem_map]
    refine ⟨dest, ?_, rfl⟩
    rw [List.mem_filter]
    refine ⟨hd, ?_⟩
    simp [Ne.symm hne]
  have hne2 : expandNode st [] ⟨start, 0, [start]⟩ ≠ [] := by
    intro h
    rw [h] at hmem
    exact List.not_mem_nil _ hmem
  obtain ⟨e2, es2, hopen⟩ := List.exists_cons_of_ne_nil hne2
  have hlen : st.length ≠ 0 := by
    intro h
    rw [List.length_eq_zero] at h
    rw [h] at hs
    exact List.not_mem_nil _ hs
  obtain ⟨m1, hm1⟩ := Nat.exists_eq_succ_of_ne_zero hlen
  rw [hopen, hm1]
  simp only [aStarLoop]
  have hfst : (extractMin dest e2 es2).1 =
      (⟨dest, 0 + edgeWeight start dest, [dest, start]⟩ : SearchEntry) := by
    apply extractMin_fst_eq _ es2 e2 (by rw [← hopen]; exact hmem)
    intro y hy hyne
    rw [← hopen] at hy
    simp only [expandNode, List.mem_map] at hy
    obtain ⟨m, hmf, rfl⟩ := hy
    rw [List.mem_filter] at hmf
    obtain ⟨hmst, hcond⟩ := hmf
    have hmd : m ≠ dest := by
      intro h
      subst h
      exact hyne rfl
    have h0 : heuristic dest dest = 0 := heuristic_self dest
    have htri : edgeWeight start dest ≤ edgeWeight start m + heuristic m dest := by
      rw [heuristic_eq_edgeWeight]
      exact edgeWeight_triangle start m dest
    have hposH : 0 < heuristic m dest := by
      have := hpos m hmst dest hd hmd
      simp only [heuristic]
      nlinarith
    show better dest _ _
    simp only [better, fEntry, hEntry]
    rcases lt_or_eq_of_le htri with hlt | heq
    · left
      simp only [h0]
      linarith
    · right
      constructor
      · simp only [h0]
        linarith
      · simp only [h0]
        linarith
  rw [hfst]
  rw [if_pos rfl]
  simp

/-- C3: The A* heuristic equals the Haversine great-circle distance to the
destination scaled by the road factor 1.35; it never exceeds the cost of
any path to the destination (admissibility, by the spherical triangle
inequality); and between any two stations of a graph whose stations sit at
pairwise distinct positions A* returns a path of minimum cost. -/
theorem astar_admissible_and_optimal (st : List GeoStation) (start dest : GeoStation)
    (hs : start ∈ st) (hd : dest ∈ st)
    (hpos : ∀ p ∈ st, ∀ q ∈ st, p ≠ q →
      0 < haversineDistance p.lat p.lng q.lat q.lng) :
    (∀ n d : GeoStation, heuristic n d =
      1.35 * haversineDistance n.lat n.lng d.lat d.lng) ∧
    (∀ (n : GeoStation) (path : List GeoStation), path.head? = some n →
      path.getLast? = some dest → heuristic n dest ≤ pathCost path) ∧
    ∃ path : List GeoStation, aStar st start dest = some (path, pathCost path) ∧
      path.head? = some start ∧ path.getLast? = some dest ∧
      ∀ q : List GeoStation, q.head? = some start → q.getLast? = some dest →
        pathCost path ≤ pathCost q := by
  refine ⟨fun n d => rfl, ?_, ?_⟩
  · intro n path hh hl
    rw [heuristic_eq_edgeWeight]
    exact pathCost_ge_direct path n dest hh hl
  · by_cases hne : start = dest
    · subst hne
      refine ⟨[start], ?_, rfl, by simp, ?_⟩
      · rw [aStar_self]
        rfl
      · intro q hh hl
        have := pathCost_nonneg q
        simp only [pathCost]
        linarith
    · have hp2 : pathCost [start, dest] = edgeWeight start dest := by
        simp [pathCost]
      refine ⟨[start, dest], ?_, rfl, by simp, ?_⟩
      · rw [aStar_finds_direct st start dest hs hd hne hpos, hp2]
      · intro q hh hl
        rw [hp2]
        exact pathCost_ge_direct q start dest hh hl

/-- C3 witness: the one-station graph; the positivity hypothesis is
vacuous and the search from the station to itself is optimal. -/
theorem astar_admissible_and_optimal_witness :
    (∀ n d : GeoStation, heuristic n d =
      1.35 * haversineDistance n.lat n.lng d.lat d.lng) ∧
    (∀ (n : GeoStation) (path : List GeoStation), path.head? = some n →
      path.getLast? = some (GeoStation.mk 0 0 0) →
      heuristic n (GeoStation.mk 0 0 0) ≤ pathCost path) ∧
    ∃ path : List GeoStation,
      aStar [GeoStation.mk 0 0 0] (GeoStation.mk 0 0 0) (GeoStation.mk 0 0 0) =
        some (path, pathCost path) ∧
      path.head? = some (GeoStation.mk 0 0 0) ∧
      path.getLast? = some (GeoStation.mk 0 0 0) ∧
      ∀ q : List GeoStation, q.head? = some (GeoStation.mk 0 0 0) →
        q.getLast? = some (GeoStation.mk 0 0 0) → pathCost path ≤ pathCost q :=
  astar_admissible_and_optimal [GeoStation.mk 0 0 0] (GeoStation.mk 0 0 0)
    (GeoStation.mk 0 0 0) (by simp) (by simp)
    (by
      intro p hp q hq hpq
      simp only [List.mem_singleton] at hp hq
      subst hp
      subst hq
      exact absurd rfl hpq)

/-! Section: Determinism (C4) -/

/-- C4: `optimize` is a pure function of the configuration, the snapshot,
the distance oracle and the explicit seed: for a fixed seed and fixed
input snapshot two runs produce identical Route sets.  All random choices
are drawn from the explicitly threaded seeded generator (`lcgNext`); the
embedding has no process-wide state at all. -/
theorem optimize_deterministic (cfg : GAConfig) (snap1 snap2 : Snapshot)
    (d : Nat → Nat → ℤ) (seed1 seed2 : Nat)
    (hseed : seed1 = seed2) (hsnap : snap1 = snap2) :
    optimize cfg snap1 d seed1 = optimize cfg snap2 d seed2 := by
  rw [hseed, hsnap]

/-- C4 witness: one concrete run compared with itself. -/
theorem optimize_deterministic_witness :
    optimize ⟨4, 2, 1, 80, 10, 1000⟩
      ⟨[⟨0, "Depot", 0, 0, true⟩, ⟨1, "A", 1, 1, false⟩],
        [⟨1, 100, 2, 1⟩], [⟨1, 500, 1, false, 0⟩]⟩ (fun _ _ => 1) 42 =
    optimize ⟨4, 2, 1, 80, 10, 1000⟩
      ⟨[⟨0, "Depot", 0, 0, true⟩, ⟨1, "A", 1, 1, false⟩],
        [⟨1, 100, 2, 1⟩], [⟨1, 500, 1, false, 0⟩]⟩ (fun _ _ => 1) 42 :=
  optimize_deterministic ⟨4, 2, 1, 80, 10, 1000⟩
    ⟨[⟨0, "Depot", 0, 0, true⟩, ⟨1, "A", 1, 1, false⟩],
      [⟨1, 100, 2, 1⟩], [⟨1, 500, 1, false, 0⟩]⟩
    ⟨[⟨0, "Depot", 0, 0, true⟩, ⟨1, "A", 1, 1, false⟩],
      [⟨1, 100, 2, 1⟩], [⟨1, 500, 1, false, 0⟩]⟩
    (fun _ _ => 1) 42 42 rfl rfl

/-! Section: Elitism and 2-opt (C7) -/

theorem bestFitness_le_of_mem (f : Chromosome → ℤ) :
    ∀ (pop : List Chromosome) (c : Chromosome), c ∈ pop → bestFitness f pop ≤ f c := by
  intro pop
  induction pop with
  | nil =>
    intro c hc
    simp at hc
  | cons a tail ih =>
    intro c hc
    cases tail with
    | nil =>
      simp only [List.mem_singleton] at hc
      subst hc
      exact le_refl _
    | cons b bs =>
      rcases List.mem_cons.mp hc with rfl | hc2
      · exact min_le_left _ _
      · exact le_trans (min_le_right _ _) (ih c hc2)

theorem exists_bestFitness (f : Chromosome → ℤ) :
    ∀ pop : List Chromosome, pop ≠ [] → ∃ c ∈ pop, bestFitness f pop = f c := by
  intro pop
  induction pop with
  | nil => intro h; exact absurd rfl h
  | cons a tail ih =>
    intro _
    cases tail with
    | nil => exact ⟨a, by simp, rfl⟩
    | cons b bs =>
      obtain ⟨m, hm, hbm⟩ := ih (by simp)
      rcases le_total (f a) (bestFitness f (b :: bs)) with h | h
      · exact ⟨a, by simp, min_eq_left h⟩
      · refine ⟨m, by simp [hm], ?_⟩
        rw [show bestFitness f (a :: b :: bs) =
          min (f a) (bestFitness f (b :: bs)) from rfl, min_eq_right h, hbm]

theorem insertByFitness_perm (f : Chromosome → ℤ) (c : Chromosome) :
    ∀ l : List Chromosome, (insertByFitness f c l).Perm (c :: l) := by
  intro l
  induction l with
  | nil => simp [insertByFitness]
  | cons x xs ih =>
    simp only [insertByFitness]
    split
    · exact List.Perm.refl _
    · exact (ih.cons x).trans (List.Perm.swap c x xs)

theorem sortByFitness_perm (f : Chromosome → ℤ) :
    ∀ l : List Chromosome, (sortByFitness f l).Perm l := by
  intro l
  induction l with
  | nil => simp [sortByFitness]
  | cons c cs ih => exact (insertByFitness_perm f c _).trans (ih.cons c)

/-- The head of the fitness-sorted population has minimal fitness. -/
theorem sortByFitness_head_min (f : Chromosome → ℤ) :
    ∀ l : List Chromosome, l ≠ [] →
      ∃ e es, sortByFitness f l = e :: es ∧ ∀ x ∈ l, f e ≤ f x := by
  intro l
  induction l with
  | nil => intro h; exact absurd rfl h
  | cons c cs ih =>
    intro _
    cases cs with
    | nil =>
      refine ⟨c, [], rfl, ?_⟩
      intro x hx
      simp only [List.mem_singleton] at hx
      subst hx
      exact le_refl _
    | cons b bs =>
      obtain ⟨e, es, hsort, hmin⟩ := ih (by simp)
      have hdef : sortByFitness f (c :: b :: bs) =
          insertByFitness f c (sortByFitness f (b :: bs)) := rfl
      rw [hdef, hsort]
      simp only [insertByFitness]
      split
      · next hle =>
        refine ⟨c, e :: es, rfl, ?_⟩
        intro x hx
        rcases List.mem_cons.mp hx with rfl | hx2
        · exact le_refl _
        · exact le_trans hle (hmin x hx2)
      · next hgt =>
        refine ⟨e, insertByFitness f c es, rfl, ?_⟩
        intro x hx
        rcases List.mem_cons.mp hx with rfl | hx2
        · exact le_of_lt (lt_of_not_le hgt)
        · exact hmin x hx2

/-- Elitism: one generation step never worsens the best fitness. -/
theorem bestFitness_nextGeneration (cfg : GAConfig) (f : Chromosome → ℤ)
    (nv : Nat) (pop : List Chromosome) (s : Nat)
    (hne : pop ≠ []) (helite : 0 < cfg.eliteCount) :
    bestFitness f (nextGeneration cfg f nv pop s).1 ≤ bestFitness f pop := by
  obtain ⟨e, es, hsort, hmin⟩ := sortByFitness_head_min f pop hne
  have hmem : e ∈ (nextGeneration cfg f nv pop s).1 := by
    simp only [nextGeneration]
    apply List.mem_append_left
    rw [hsort]
    cases hn : cfg.eliteCount with
    | zero => omega
    | succ k => simp
  have h1 := bestFitness_le_of_mem f _ e hmem
  obtain ⟨m, hm, hbm⟩ := exists_bestFitness f pop hne
  rw [hbm]
  exact le_trans h1 (hmin m hm)

theorem nextGeneration_ne_nil (cfg : GAConfig) (f : Chromosome → ℤ)
    (nv : Nat) (pop : List Chromosome) (s : Nat)
    (hne : pop ≠ []) (helite : 0 < cfg.eliteCount) :
    (nextGeneration cfg f nv pop s).1 ≠ [] := by
  obtain ⟨e, es, hsort, _⟩ := sortByFitness_head_min f pop hne
  simp only [nextGeneration]
  intro hcontra
  rcases List.append_eq_nil.mp hcontra with ⟨h1, _⟩
  rw [hsort] at h1
  cases hn : cfg.eliteCount with
  | zero => omega
  | succ k =>
    rw [hn] at h1
    simp at h1

/-- Elitism: across any number of generations the best fitness is
non-increasing. -/
theorem bestFitness_evolve (cfg : GAConfig) (f : Chromosome → ℤ) (nv : Nat) :
    ∀ (gens : Nat) (pop : List Chromosome) (s : Nat), pop ≠ [] →
      0 < cfg.eliteCount →
      bestFitness f (evolve cfg f nv gens pop s).1 ≤ bestFitness f pop := by
  intro gens
  induction gens with
  | zero =>
    intro pop s _ _
    exact le_refl _
  | succ g ih =>
    intro pop s hne helite
    have hstep := bestFitness_nextGeneration cfg f nv pop s hne helite
    have hng := nextGeneration_ne_nil cfg f nv pop s hne helite
    calc bestFitness f (evolve cfg f nv (g + 1) pop s).1
        = bestFitness f (evolve cfg f nv g (nextGeneration cfg f nv pop s).1
            (nextGeneration cfg f nv pop s).2).1 := rfl
      _ ≤ bestFitness f (nextGeneration cfg f nv pop s).1 := ih _ _ hng helite
      _ ≤ bestFitness f pop := hstep

theorem considerReversal_le (d : Nat → Nat → ℤ) (r acc : List Nat) (i j : Nat)
    (B : ℤ) (h : routeDistance d acc ≤ B) :
    routeDistance d (considerReversal d r acc i j) ≤ B := by
  simp only [considerReversal]
  split
  · next hlt => linarith
  · exact h

theorem foldl_considerReversal_le (d : Nat → Nat → ℤ) (r : List Nat) (i : Nat)
    (B : ℤ) :
    ∀ (js : List Nat) (acc : List Nat), routeDistance d acc ≤ B →
      routeDistance d (js.foldl (fun a j => considerReversal d r a i j) acc) ≤ B := by
  intro js
  induction js with
  | nil => intro acc h; exact h
  | cons j js ih =>
    intro acc h
    exact ih _ (considerReversal_le d r acc i j B h)

theorem twoOptStep_le (d : Nat → Nat → ℤ) (r : List Nat) :
    routeDistance d (twoOptStep d r) ≤ routeDistance d r := by
  simp only [twoOptStep]
  have houter : ∀ (is : List Nat) (acc : List Nat),
      routeDistance d acc ≤ routeDistance d r →
      routeDistance d (is.foldl (fun a i => bestReversalRow d r i a) acc) ≤
        routeDistance d r := by
    intro is
    induction is with
    | nil => intro acc h; exact h
    | cons i is ih =>
      intro acc h
      apply ih
      simp only [bestReversalRow]
      exact foldl_considerReversal_le d r i _ _ acc h
  exact houter _ r (le_refl _)

/-- C7: with a positive elite count (the spec carries the top 10
unchanged), the best individual's fitness is non-increasing across the
genetic algorithm's generations; and a single application of the 2-opt
refinement never increases a route's distance. -/
theorem ga_elitism_monotone_and_two_opt :
    (∀ (cfg : GAConfig) (f : Chromosome → ℤ) (nv : Nat) (pop : List Chromosome)
        (s gens : Nat), pop ≠ [] → 0 < cfg.eliteCount →
      bestFitness f (evolve cfg f nv gens pop s).1 ≤ bestFitness f pop) ∧
    ∀ (d : Nat → Nat → ℤ) (r : List Nat),
      routeDistance d (twoOptStep d r) ≤ routeDistance d r :=
  ⟨fun cfg f nv pop s gens h1 h2 => bestFitness_evolve cfg f nv gens pop s h1 h2,
    fun d r => twoOptStep_le d r⟩

/-- C7 witness: a one-chromosome population evolved one generation with a
constant fitness, at the spec's elite-count shape. -/
theorem ga_elitism_monotone_and_two_opt_witness :
    bestFitness (fun _ => 0)
      (evolve ⟨1, 1, 1, 80, 10, 1000⟩ (fun _ => 0) 1 1 [[]] 7).1 ≤
      bestFitness (fun _ => 0) [[]] :=
  ga_elitism_monotone_and_two_opt.1 ⟨1, 1, 1, 80, 10, 1000⟩ (fun _ => 0) 1 [[]] 7 1
    (by simp) (by decide)

/-! Section: Route invariants (C5) -/

/-- Inversion of a successful run: the depot was found, the fleet was
nonempty, all cargo weights positive, and the output is the materialized
pipeline record. -/
theorem optimize_ok_elim (cfg : GAConfig) (snap : Snapshot) (d : Nat → Nat → ℤ)
    (seed : Nat) (out : OptimizeResult)
    (hok : optimize cfg snap d seed = Except.ok out) :
    ∃ depot : StationRec,
      snap.stations.find? (fun s => s.isDepot) = some depot ∧
      snap.vehicles ≠ [] ∧
      (∀ c ∈ snap.cargos, c.weightKg ≠ 0) ∧
      out = optimizeBody cfg snap d seed depot.id := by
  unfold optimize at hok
  split at hok
  · exact absurd hok (by simp)
  · next depot hfind =>
    split at hok
    · exact absurd hok (by simp)
    · next hveh =>
      split at hok
      · exact absurd hok (by simp)
      · next hw =>
        split at hok
        · exact absurd hok (by simp)
        · refine ⟨depot, hfind, hveh, ?_, ?_⟩
          · intro c hc hcw
            apply hw
            rw [List.any_eq_true]
            exact ⟨c, hc, by simp [hcw]⟩
          · injection hok with h
            exact h.symm

theorem materializeAux_shape (d : Nat → Nat → ℤ) (depot : Nat) :
    ∀ (vs : List Vehicle) (i : Nat) (ch : Chromosome) (r : Route),
      r ∈ materializeAux d depot vs i ch →
      ∃ v cs, v ∈ vs ∧ cs ≠ [] ∧ r = mkRoute d depot v cs := by
  intro vs
  induction vs with
  | nil =>
    intro i ch r hr
    simp [materializeAux] at hr
  | cons v vs ih =>
    intro i ch r hr
    simp only [materializeAux] at hr
    split at hr
    · obtain ⟨v2, cs, hv2, hcs, hreq⟩ := ih (i + 1) ch r hr
      exact ⟨v2, cs, List.mem_cons_of_mem _ hv2, hcs, hreq⟩
    · next hne =>
      rcases List.mem_cons.mp hr with rfl | hr2
      · exact ⟨v, routeCargos ch i, by simp, hne, rfl⟩
      · obtain ⟨v2, cs, hv2, hcs, hreq⟩ := ih (i + 1) ch r hr2
        exact ⟨v2, cs, List.mem_cons_of_mem _ hv2, hcs, hreq⟩

/-- When the total capacity penalty is zero, every materialized route
respects its vehicle's capacity. -/
theorem materializeAux_load (d : Nat → Nat → ℤ) (depot : Nat) :
    ∀ (vs : List Vehicle) (i : Nat) (ch : Chromosome),
      overweightAux vs i ch = 0 →
      ∀ r ∈ materializeAux d depot vs i ch, r.loadKg ≤ r.capacityKg := by
  intro vs
  induction vs with
  | nil =>
    intro i ch _ r hr
    simp [materializeAux] at hr
  | cons v vs ih =>
    intro i ch hz r hr
    simp only [overweightAux] at hz
    have h1 : overweightKg v (routeCargos ch i) = 0 := by omega
    have h2 : overweightAux vs (i + 1) ch = 0 := by omega
    simp only [materializeAux] at hr
    split at hr
    · exact ih (i + 1) ch h2 r hr
    · rcases List.mem_cons.mp hr with rfl | hr2
      · show (mkRoute d depot v (routeCargos ch i)).loadKg ≤ _
        simp only [mkRoute]
        simp only [overweightKg] at h1
        omega
      · exact ih (i + 1) ch h2 r hr2

/-- A route's stop list is the depot, distinct non-depot stations, and
the depot again. -/
theorem routeStops_shape (depot : Nat) (cs : List Cargo) :
    ∃ mid, routeStops depot cs = (depot :: mid) ++ [depot] ∧
      mid.Nodup ∧ depot ∉ mid := by
  refine ⟨((cs.map Cargo.destId).filter (fun dst => dst ≠ depot)).dedup, ?_, ?_, ?_⟩
  · simp [routeStops]
  · exact List.nodup_dedup _
  · intro hmem
    rw [List.mem_dedup] at hmem
    have := List.of_mem_filter hmem
    simp at this

/-- C5 (amended): for every route returned by a successful run, if the
returned solution carries no capacity penalty then the route's load is at
most its vehicle's capacity; unconditionally, the route's stops are the
depot, then internally duplicate-free non-depot stations, then the depot
again (so the first and last stop are the depot and no station appears
twice apart from the depot at the two ends). -/
theorem optimize_route_invariants (cfg : GAConfig) (snap : Snapshot)
    (d : Nat → Nat → ℤ) (seed : Nat) (out : OptimizeResult)
    (hok : optimize cfg snap d seed = Except.ok out) :
    ∀ r ∈ out.routes,
      (out.penaltyKg = 0 → r.loadKg ≤ r.capacityKg) ∧
      ∃ dep ∈ snap.stations, dep.isDepot = true ∧
        ∃ mid, r.stops = (dep.id :: mid) ++ [dep.id] ∧ mid.Nodup ∧ dep.id ∉ mid := by
  obtain ⟨depot, hfind, _, _, hout⟩ := optimize_ok_elim cfg snap d seed out hok
  subst hout
  intro r hr
  simp only [optimizeBody] at hr
  constructor
  · intro hpen
    simp only [optimizeBody] at hpen
    exact materializeAux_load d depot.id _ 0 _ hpen r hr
  · obtain ⟨v, cs, _, _, rfl⟩ := materializeAux_shape d depot.id _ 0 _ r hr
    have hdep1 : depot ∈ snap.stations := List.mem_of_find?_eq_some hfind
    have hdep2 : depot.isDepot = true := by
      have := List.find?_some hfind
      simpa using this
    obtain ⟨mid, hstops, hnodup, hnotmem⟩ := routeStops_shape depot.id cs
    exact ⟨depot, hdep1, hdep2, mid, by simp only [mkRoute]; exact hstops,
      hnodup, hnotmem⟩

/-- C5 counterexample: two 600 kg cargos against base vehicles of 500 kg
and 750 kg.  The total (1200 kg) fits the base fleet (1250 kg), so both
cargos are selected, yet no partition fits both vehicles: the returned
Route set contains a route whose load exceeds its vehicle's capacity —
and its stop list `[depot, station, depot]` repeats the depot, so "no
station appears twice" also fails as stated. -/
theorem optimize_route_invariant_counterexample :
    (match optimize ⟨2, 1, 1, 80, 10, 1000⟩
        ⟨[⟨0, "D", 0, 0, true⟩, ⟨1, "A", 1, 1, false⟩],
          [⟨1, 600, 1, 1⟩, ⟨2, 600, 1, 1⟩],
          [⟨1, 500, 1, false, 0⟩, ⟨2, 750, 1, false, 0⟩]⟩ (fun _ _ => 0) 1 with
      | Except.ok out => out.routes.any
          (fun r => decide (r.capacityKg < r.loadKg) && !(decide r.stops.Nodup))
      | Except.error _ => false) = true := by
  decide

/-- C5 witness: a feasible single-cargo day; the run succeeds with zero
penalty and the returned route satisfies the amended invariants. -/
theorem optimize_route_invariants_witness :
    ((OptimizeResult.mk [Route.mk 1 100 10 [0, 1, 0] 0 0 [1]] [] 0 0 0).penaltyKg = 0 →
      (Route.mk 1 100 10 [0, 1, 0] 0 0 [1]).loadKg ≤
        (Route.mk 1 100 10 [0, 1, 0] 0 0 [1]).capacityKg) ∧
    ∃ dep ∈ ([⟨0, "D", 0, 0, true⟩, ⟨1, "A", 1, 1, false⟩] : List StationRec),
      dep.isDepot = true ∧
      ∃ mid, (Route.mk 1 100 10 [0, 1, 0] 0 0 [1]).stops =
        (dep.id :: mid) ++ [dep.id] ∧ mid.Nodup ∧ dep.id ∉ mid :=
  optimize_route_invariants ⟨1, 0, 1, 80, 10, 1000⟩
    ⟨[⟨0, "D", 0, 0, true⟩, ⟨1, "A", 1, 1, false⟩],
      [⟨1, 10, 1, 1⟩], [⟨1, 100, 1, false, 0⟩]⟩ (fun _ _ => 0) 0
    (OptimizeResult.mk [Route.mk 1 100 10 [0, 1, 0] 0 0 [1]] [] 0 0 0)
    (by rfl) (Route.mk 1 100 10 [0, 1, 0] 0 0 [1]) (by decide)

/-! Section: Conservation (C6): list helpers -/

theorem getD_mem_of_lt (l : List Chromosome) (i : Nat) (h : i < l.length) :
    l.getD i [] ∈ l := by
  rw [List.getD_eq_getElem?_getD, List.getElem?_eq_getElem h]
  exact List.getElem_mem h

theorem mem_of_mem_set {α : Type} {y x : α} :
    ∀ (l : List α) (n : Nat), y ∈ l.set n x → y = x ∨ y ∈ l := by
  intro l
  induction l with
  | nil => intro n h; simp at h
  | cons a t ih =>
    intro n h
    cases n with
    | zero =>
      rw [List.set_cons_zero] at h
      rcases List.mem_cons.mp h with rfl | h2
      · exact Or.inl rfl
      · exact Or.inr (List.mem_cons_of_mem _ h2)
    | succ m =>
      rw [List.set_cons_succ] at h
      rcases List.mem_cons.mp h with rfl | h2
      · exact Or.inr (List.mem_cons_self _ _)
      · rcases ih m h2 with h3 | h3
        · exact Or.inl h3
        · exact Or.inr (List.mem_cons_of_mem _ h3)

theorem set_get_self {α : Type} :
    ∀ (l : List α) (n : Nat) (x : α), l.get? n = some x → l.set n x = l := by
  intro l
  induction l with
  | nil => intro n x h; simp at h
  | cons a t ih =>
    intro n x h
    cases n with
    | zero =>
      simp only [List.get?_cons_zero, Option.some.injEq] at h
      rw [h, List.set_cons_zero]
    | succ m =>
      simp only [List.get?_cons_succ] at h
      rw [List.set_cons_succ, ih m x h]

theorem count_set_add {α : Type} [DecidableEq α] :
    ∀ (l : List α) (n : Nat) (gi x a : α), l.get? n = some gi →
      (l.set n x).count a + ([gi] : List α).count a =
        l.count a + ([x] : List α).count a := by
  intro l
  induction l with
  | nil => intro n gi x a h; simp at h
  | cons b t ih =>
    intro n gi x a h
    cases n with
    | zero =>
      simp only [List.get?_cons_zero, Option.some.injEq] at h
      subst h
      simp only [List.set_cons_zero, List.count_cons, List.count_nil]
      omega
    | succ m =>
      simp only [List.get?_cons_succ] at h
      simp only [List.set_cons_succ, List.count_cons, List.count_nil]
      have := ih m gi x a h
      simp only [List.count_cons, List.count_nil] at this
      omega

theorem countP_add_countP_disjoint {α : Type} (p q pq : α → Bool) :
    ∀ l : List α, (∀ a ∈ l, (pq a = true ↔ (p a = true ∨ q a = true)) ∧
      ¬(p a = true ∧ q a = true)) →
      l.countP p + l.countP q = l.countP pq := by
  intro l
  induction l with
  | nil => intro _; simp
  | cons a t ih =>
    intro h
    have ha := h a (List.mem_cons_self a t)
    have ht := fun b hb => h b (List.mem_cons_of_mem a hb)
    simp only [List.countP_cons]
    have := ih ht
    by_cases hp : p a = true <;> by_cases hq : q a = true <;>
      by_cases hpq : pq a = true <;>
      simp_all <;> omega

theorem countP_congr_mem {α : Type} (p q : α → Bool) :
    ∀ l : List α, (∀ a ∈ l, p a = q a) → l.countP p = l.countP q := by
  intro l
  induction l with
  | nil => intro _; simp
  | cons a t ih =>
    intro h
    simp only [List.countP_cons]
    rw [ih (fun b hb => h b (List.mem_cons_of_mem a hb)),
      h a (List.mem_cons_self a t)]

/-! Section: Conservation (C6): operator invariants -/

theorem assignRandom_inv (nv : Nat) (hnv : 0 < nv) :
    ∀ (cs : List Cargo) (s : Nat),
      ((assignRandom cs nv s).1.map Prod.fst) = cs ∧
        ∀ g ∈ (assignRandom cs nv s).1, g.2 < nv := by
  intro cs
  induction cs with
  | nil => intro s; simp [assignRandom]
  | cons c cs ih =>
    intro s
    simp only [assignRandom, List.map_cons]
    obtain ⟨ih1, ih2⟩ := ih (randBelow s nv).2
    refine ⟨by rw [ih1], ?_⟩
    intro g hg
    rcases List.mem_cons.mp hg with rfl | hg2
    · simp only [randBelow]
      rw [if_neg (Nat.pos_iff_ne_zero.mp hnv)]
      exact Nat.mod_lt _ hnv
    · exact ih2 g hg2

theorem chromInv_assignRandom (sel : List Cargo) (nv : Nat) (s : Nat)
    (hnv : sel ≠ [] → 0 < nv) :
    chromInv sel nv (assignRandom sel nv s).1 := by
  cases hsel : sel with
  | nil => simp [chromInv, assignRandom]
  | cons c cs =>
    have h0 : 0 < nv := by
      apply hnv
      rw [hsel]
      simp
    obtain ⟨h1, h2⟩ := assignRandom_inv nv h0 (c :: cs) s
    rw [← hsel] at *
    obtain ⟨h1, h2⟩ := assignRandom_inv nv h0 sel s
    exact ⟨by rw [h1], h2⟩

theorem initPopulation_inv (sel : List Cargo) (nv : Nat)
    (hnv : sel ≠ [] → 0 < nv) :
    ∀ (k : Nat) (s : Nat), ∀ ch ∈ (initPopulation k sel nv s).1,
      chromInv sel nv ch := by
  intro k
  induction k with
  | zero => intro s ch hch; simp [initPopulation] at hch
  | succ m ih =>
    intro s ch hch
    simp only [initPopulation] at hch
    rcases List.mem_cons.mp hch with rfl | hch2
    · exact chromInv_assignRandom sel nv s hnv
    · exact ih _ ch hch2

theorem initPopulation_length (sel : List Cargo) (nv : Nat) :
    ∀ (k : Nat) (s : Nat), (initPopulation k sel nv s).1.length = k := by
  intro k
  induction k with
  | zero => intro s; simp [initPopulation]
  | succ m ih => intro s; simp [initPopulation, ih]

theorem tournament_mem (f : Chromosome → ℤ) (pop : List Chromosome) (s : Nat)
    (hne : pop ≠ []) : (tournament f pop s).1 ∈ pop := by
  have hlen : 0 < pop.length := List.length_pos.mpr hne
  simp only [tournament]
  have hm : ∀ t : Nat, pop.getD (randBelow t pop.length).1 [] ∈ pop := by
    intro t
    apply getD_mem_of_lt
    simp only [randBelow]
    rw [if_neg (Nat.pos_iff_ne_zero.mp hlen)]
    exact Nat.mod_lt _ hlen
  split
  · exact hm s
  · exact hm _

theorem chromInv_crossover (sel : List Cargo) (nv : Nat) (c1 c2 : Chromosome)
    (h1 : chromInv sel nv c1) (h2 : chromInv sel nv c2) :
    chromInv sel nv (crossover c1 c2) := by
  constructor
  · have : (crossover c1 c2).map Prod.fst = c1.map Prod.fst := by
      simp [crossover, List.map_map]
    rw [this]
    exact h1.1
  · intro g hg
    simp only [crossover, List.mem_map] at hg
    obtain ⟨g0, hg0, rfl⟩ := hg
    show lookupVehicle c2 g0 < nv
    simp only [lookupVehicle]
    split
    · next g2 hfind =>
      exact h2.2 g2 (List.mem_of_find?_eq_some hfind)
    · exact h1.2 g0 hg0

theorem swapPositions_perm (ch : Chromosome) (i j : Nat) :
    (swapPositions ch i j).Perm ch := by
  simp only [swapPositions]
  split
  · exact List.Perm.refl _
  · next hij =>
    split
    · next gi gj hgi hgj =>
      rw [List.perm_iff_count]
      intro a
      have hgj2 : (ch.set i gj).get? j = some gj := by
        rw [List.get?_set_ne _ _ hij]
        exact hgj
      have e1 := count_set_add (ch.set i gj) j gj gi a hgj2
      have e2 := count_set_add ch i gi gj a hgi
      omega
    · exact List.Perm.refl _

theorem chromInv_swapPositions (sel : List Cargo) (nv : Nat) (ch : Chromosome)
    (i j : Nat) (h : chromInv sel nv ch) :
    chromInv sel nv (swapPositions ch i j) := by
  have hperm := swapPositions_perm ch i j
  constructor
  · exact (hperm.map Prod.fst).trans h.1
  · intro g hg
    exact h.2 g (hperm.mem_iff.mp hg)

theorem chromInv_reassignPosition (sel : List Cargo) (nv : Nat) (ch : Chromosome)
    (k newV : Nat) (h : chromInv sel nv ch) (hv : newV < nv) :
    chromInv sel nv (reassignPosition ch k newV) := by
  simp only [reassignPosition]
  split
  · next g0 hget =>
    constructor
    · have hmap : (ch.set k (g0.1, newV)).map Prod.fst = ch.map Prod.fst := by
        rw [List.map_set]
        apply set_get_self
        rw [List.get?_map, hget]
        rfl
      rw [hmap]
      exact h.1
    · intro g hg
      rcases mem_of_mem_set _ k hg with rfl | hg2
      · exact hv
      · exact h.2 g hg2
  · exact h

theorem chromInv_mutate (sel : List Cargo) (nv : Nat) (cfg : GAConfig)
    (ch : Chromosome) (s : Nat) (h : chromInv sel nv ch)
    (hnv : sel ≠ [] → 0 < nv) :
    chromInv sel nv (mutate cfg nv ch s).1 := by
  simp only [mutate]
  split
  · split
    · exact chromInv_swapPositions sel nv ch _ _ h
    · by_cases hch : ch = []
      · subst hch
        simp only [reassignPosition]
        cases hk : ([] : Chromosome).get? (randBelow (randBelow (randBelow s 100).2 2).2 0).1 with
        | none => exact h
        | some g => simp at hk
      · have hsel : sel ≠ [] := by
          intro hs
          subst hs
          have := h.1
          rw [List.perm_nil, List.map_eq_nil] at this
          exact hch this
        apply chromInv_reassignPosition sel nv ch _ _ h
        simp only [randBelow]
        have h0 := hnv hsel
        rw [if_neg (Nat.pos_iff_ne_zero.mp h0)]
        exact Nat.mod_lt _ h0
  · exact h

theorem makeOffspring_inv (sel : List Cargo) (nv : Nat) (cfg : GAConfig)
    (f : Chromosome → ℤ) (pop : List Chromosome)
    (hne : pop ≠ []) (hall : ∀ c ∈ pop, chromInv sel nv c)
    (hnv : sel ≠ [] → 0 < nv) :
    ∀ (k : Nat) (s : Nat), ∀ c ∈ (makeOffspring cfg f nv pop k s).1,
      chromInv sel nv c := by
  intro k
  induction k with
  | zero => intro s c hc; simp [makeOffspring] at hc
  | succ m ih =>
    intro s c hc
    simp only [makeOffspring] at hc
    rcases List.mem_cons.mp hc with rfl | hc2
    · have hp1 := hall _ (tournament_mem f pop s hne)
      have hp2 := hall _ (tournament_mem f pop (tournament f pop s).2 hne)
      apply chromInv_mutate sel nv cfg _ _ ?_ hnv
      split
      · exact chromInv_crossover sel nv _ _ hp1 hp2
      · exact hp1
    · exact ih _ c hc2

theorem makeOffspring_length (cfg : GAConfig) (f : Chromosome → ℤ) (nv : Nat)
    (pop : List Chromosome) :
    ∀ (k : Nat) (s : Nat), (makeOffspring cfg f nv pop k s).1.length = k := by
  intro k
  induction k with
  | zero => intro s; simp [makeOffspring]
  | succ m ih => intro s; simp [makeOffspring, ih]

theorem nextGeneration_inv (sel : List Cargo) (nv : Nat) (cfg : GAConfig)
    (f : Chromosome → ℤ) (pop : List Chromosome) (s : Nat)
    (hne : pop ≠ []) (hall : ∀ c ∈ pop, chromInv sel nv c)
    (hnv : sel ≠ [] → 0 < nv) :
    ∀ c ∈ (nextGeneration cfg f nv pop s).1, chromInv sel nv c := by
  intro c hc
  simp only [nextGeneration] at hc
  rcases List.mem_append.mp hc with hc1 | hc2
  · have hmem : c ∈ sortByFitness f pop := List.take_subset _ _ hc1
    exact hall c ((sortByFitness_perm f pop).mem_iff.mp hmem)
  · exact makeOffspring_inv sel nv cfg f pop hne hall hnv _ s c hc2

theorem nextGeneration_ne_nil_of_popSize (cfg : GAConfig) (f : Chromosome → ℤ)
    (nv : Nat) (pop : List Chromosome) (s : Nat)
    (hne : pop ≠ []) (hpop : 0 < cfg.popSize) :
    (nextGeneration cfg f nv pop s).1 ≠ [] := by
  simp only [nextGeneration]
  intro hcontra
  rcases List.append_eq_nil.mp hcontra with ⟨h1, h2⟩
  have hlen := makeOffspring_length cfg f nv pop (cfg.popSize - cfg.eliteCount) s
  rw [h2] at hlen
  simp only [List.length_nil] at hlen
  have helite : cfg.popSize ≤ cfg.eliteCount := by omega
  obtain ⟨e, es, hsort, _⟩ := sortByFitness_head_min f pop hne
  rw [hsort] at h1
  have : 0 < cfg.eliteCount := by omega
  cases hn : cfg.eliteCount with
  | zero => omega
  | succ k =>
    rw [hn] at h1
    simp at h1

theorem evolve_inv (sel : List Cargo) (nv : Nat) (cfg : GAConfig)
    (f : Chromosome → ℤ) (hpop : 0 < cfg.popSize) (hnv : sel ≠ [] → 0 < nv) :
    ∀ (gens : Nat) (pop : List Chromosome) (s : Nat),
      pop ≠ [] → (∀ c ∈ pop, chromInv sel nv c) →
      (evolve cfg f nv gens pop s).1 ≠ [] ∧
        ∀ c ∈ (evolve cfg f nv gens pop s).1, chromInv sel nv c := by
  intro gens
  induction gens with
  | zero => intro pop s hne hall; exact ⟨hne, hall⟩
  | succ m ih =>
    intro pop s hne hall
    have hng := nextGeneration_ne_nil_of_popSize cfg f nv pop s hne hpop
    have hni := nextGeneration_inv sel nv cfg f pop s hne hall hnv
    exact ih _ _ hng hni

/-! Section: Conservation (C6): counting the materialized assignment -/

theorem count_materializeAux_ids (d : Nat → Nat → ℤ) (depot : Nat) (cid : Nat) :
    ∀ (vs : List Vehicle) (i : Nat) (ch : Chromosome),
      ((materializeAux d depot vs i ch).flatMap Route.assignedCargoIds).count cid =
        ch.countP (fun g => g.1.id == cid &&
          (decide (i ≤ g.2) && decide (g.2 < i + vs.length))) := by
  intro vs
  induction vs with
  | nil =>
    intro i ch
    simp only [materializeAux, List.flatMap_nil, List.count_nil]
    symm
    rw [List.countP_eq_zero]
    intro g _
    simp only [Bool.and_eq_true, decide_eq_true_eq, List.length_nil, beq_iff_eq]
    omega
  | cons v vs ih =>
    intro i ch
    have hkey : ((materializeAux d depot (v :: vs) i ch).flatMap
          Route.assignedCargoIds).count cid =
        ((routeCargos ch i).map Cargo.id).count cid +
          ((materializeAux d depot vs (i + 1) ch).flatMap
            Route.assignedCargoIds).count cid := by
      simp only [materializeAux]
      split
      · next hemp =>
        rw [hemp]
        simp
      · simp [mkRoute, List.flatMap_cons, List.count_append]
    rw [hkey, ih]
    have hroute : ((routeCargos ch i).map Cargo.id).count cid =
        ch.countP (fun g => g.1.id == cid && g.2 == i) := by
      rw [List.count_eq_countP]
      simp only [routeCargos, List.map_map, List.countP_map, List.countP_filter]
      apply countP_congr_mem
      intro g _
      rfl
    rw [hroute]
    apply countP_add_countP_disjoint
    intro g _
    simp only [Bool.and_eq_true, decide_eq_true_eq, beq_iff_eq, List.length_cons]
    constructor
    · constructor
      · intro h
        omega
      · intro h
        omega
    · omega

/-- With the chromosome invariant, the assigned ids across all
materialized routes count exactly like the selected cargos' ids. -/
theorem count_materialize_eq_sel (d : Nat → Nat → ℤ) (depot cid : Nat)
    (fleet : List Vehicle) (ch : Chromosome) (sel : List Cargo)
    (hinv : chromInv sel fleet.length ch) :
    ((materializeAux d depot fleet 0 ch).flatMap Route.assignedCargoIds).count cid =
      (sel.map Cargo.id).count cid := by
  rw [count_materializeAux_ids]
  have h1 : ch.countP (fun g => g.1.id == cid &&
        (decide (0 ≤ g.2) && decide (g.2 < 0 + fleet.length))) =
      ch.countP (fun g => g.1.id == cid) := by
    apply countP_congr_mem
    intro g hg
    have hb := hinv.2 g hg
    simp [hb]
  rw [h1]
  have h2 : ch.countP (fun g => g.1.id == cid) =
      ((ch.map Prod.fst).map Cargo.id).count cid := by
    rw [List.count_eq_countP, List.countP_map, List.countP_map]
    apply countP_congr_mem
    intro g _
    rfl
  rw [h2]
  exact List.Perm.count_eq ((hinv.1).map Cargo.id) cid

/-- The Capacity Selector drops nothing: selected plus deferred is a
permutation of the pending list. -/
theorem selectCargos_perm (pending : List Cargo) (fleet : List Vehicle) :
    ((selectCargos pending fleet).1 ++ (selectCargos pending fleet).2.1).Perm
      pending := by
  simp only [selectCargos]
  split
  · simp
  · exact knapSelect_perm pending (fleetCapacity fleet)

/-- In a validated run that selected at least one cargo, the active fleet
is nonempty (base-fleet case: positive weight fits a positive base
capacity, so a base vehicle exists; overflow case: the whole validated
fleet is active). -/
theorem activeFleet_pos (snap : Snapshot)
    (hveh : snap.vehicles ≠ [])
    (hw : ∀ c ∈ snap.cargos, c.weightKg ≠ 0)
    (hsel : (selectCargos snap.cargos snap.vehicles).1 ≠ []) :
    0 < (activeFleetOf snap).length := by
  by_cases hover : cargoWeight snap.cargos ≤ baseCapacity snap.vehicles
  · have hsc : selectCargos snap.cargos snap.vehicles = (snap.cargos, [], false) := by
      simp [selectCargos, hover]
    rw [hsc] at hsel
    have hfleet : activeFleetOf snap =
        snap.vehicles.filter (fun v => !v.isRental) := by
      simp [activeFleetOf, hsc]
    rw [hfleet]
    have hwpos : 0 < cargoWeight snap.cargos := by
      cases hcg : snap.cargos with
      | nil => exact absurd hcg hsel
      | cons c cs =>
        have := hw c (by rw [hcg]; simp)
        rw [cargoWeight_cons]
        omega
    have hbase : 0 < baseCapacity snap.vehicles := lt_of_lt_of_le hwpos hover
    rw [List.length_pos]
    intro hnil
    rw [baseCapacity, hnil] at hbase
    simp at hbase
  · have hsc2 : (selectCargos snap.cargos snap.vehicles).2.2 = true := by
      simp [selectCargos, hover]
    have hfleet : activeFleetOf snap = snap.vehicles := by
      simp [activeFleetOf, hsc2]
    rw [hfleet, List.length_pos]
    exact hveh

/-- The best chromosome of a validated run satisfies the structural
invariant. -/
theorem bestChromosome_inv (cfg : GAConfig) (snap : Snapshot)
    (d : Nat → Nat → ℤ) (seed : Nat) (depotId : Nat)
    (hpop : 0 < cfg.popSize)
    (hveh : snap.vehicles ≠ [])
    (hw : ∀ c ∈ snap.cargos, c.weightKg ≠ 0) :
    chromInv (selectCargos snap.cargos snap.vehicles).1
      (activeFleetOf snap).length
      (bestChromosome cfg snap d seed depotId) := by
  have hnv : (selectCargos snap.cargos snap.vehicles).1 ≠ [] →
      0 < (activeFleetOf snap).length := fun h => activeFleet_pos snap hveh hw h
  simp only [bestChromosome]
  have hlen := initPopulation_length (selectCargos snap.cargos snap.vehicles).1
    (activeFleetOf snap).length cfg.popSize seed
  have hne : (initPopulation cfg.popSize (selectCargos snap.cargos snap.vehicles).1
      (activeFleetOf snap).length seed).1 ≠ [] := by
    intro h
    rw [h] at hlen
    simp only [List.length_nil] at hlen
    omega
  have hinit := initPopulation_inv (selectCargos snap.cargos snap.vehicles).1
    (activeFleetOf snap).length hnv cfg.popSize seed
  obtain ⟨hfinne, hfininv⟩ := evolve_inv (selectCargos snap.cargos snap.vehicles).1
    (activeFleetOf snap).length cfg
    (fitness cfg d depotId (activeFleetOf snap)) hpop hnv cfg.generations _ _ hne hinit
  obtain ⟨e, es, hsort, _⟩ := sortByFitness_head_min
    (fitness cfg d depotId (activeFleetOf snap)) _ hfinne
  rw [hsort]
  simp only [List.headD_cons]
  apply hfininv
  apply (sortByFitness_perm _ _).mem_iff.mp
  rw [hsort]
  simp

/-- C6: in the output of a successful full pipeline run (with a positive
population size and distinct cargo ids), every pending cargo id appears
exactly once across the returned routes' assigned-cargo lists and the
deferred list together: never in both and never in neither. -/
theorem optimize_conservation (cfg : GAConfig) (snap : Snapshot)
    (d : Nat → Nat → ℤ) (seed : Nat) (out : OptimizeResult)
    (hpop : 0 < cfg.popSize)
    (hok : optimize cfg snap d seed = Except.ok out)
    (hids : (snap.cargos.map Cargo.id).Nodup) :
    ∀ c ∈ snap.cargos,
      (out.routes.flatMap Route.assignedCargoIds).count c.id +
        (out.deferred.map Prod.fst).count c.id = 1 := by
  obtain ⟨depot, hfind, hveh, hw, hout⟩ := optimize_ok_elim cfg snap d seed out hok
  subst hout
  intro c hc
  have hbestInv := bestChromosome_inv cfg snap d seed depot.id hpop hveh hw
  have hassigned : (((optimizeBody cfg snap d seed depot.id).routes).flatMap
        Route.assignedCargoIds).count c.id =
      ((selectCargos snap.cargos snap.vehicles).1.map Cargo.id).count c.id := by
    simp only [optimizeBody]
    exact count_materialize_eq_sel d depot.id c.id (activeFleetOf snap) _
      (selectCargos snap.cargos snap.vehicles).1 hbestInv
  have hdef : (((optimizeBody cfg snap d seed depot.id).deferred).map
        Prod.fst).count c.id =
      ((selectCargos snap.cargos snap.vehicles).2.1.map Cargo.id).count c.id := by
    simp only [optimizeBody, List.map_map]
    rfl
  rw [hassigned, hdef]
  have hperm := (selectCargos_perm snap.cargos snap.vehicles).map Cargo.id
  rw [List.map_append] at hperm
  have hcnt := hperm.count_eq c.id
  rw [List.count_append] at hcnt
  rw [hcnt]
  exact List.count_eq_one_of_mem hids (List.mem_map_of_mem Cargo.id hc)

/-- C6 witness: a one-cargo run; cargo id 5 lands in exactly one route
and the deferred list is empty. -/
theorem optimize_conservation_witness :
    ((OptimizeResult.mk [Route.mk 1 100 10 [0, 1, 0] 0 0 [5]] [] 0 0 0).routes.flatMap
        Route.assignedCargoIds).count (Cargo.mk 5 10 1 1).id +
      ((OptimizeResult.mk [Route.mk 1 100 10 [0, 1, 0] 0 0 [5]] [] 0 0 0).deferred.map
        Prod.fst).count (Cargo.mk 5 10 1 1).id = 1 :=
  optimize_conservation ⟨1, 0, 1, 80, 10, 1000⟩
    ⟨[⟨0, "D", 0, 0, true⟩, ⟨1, "A", 1, 1, false⟩],
      [⟨5, 10, 1, 1⟩], [⟨1, 100, 1, false, 0⟩]⟩ (fun _ _ => 0) 0
    (OptimizeResult.mk [Route.mk 1 100 10 [0, 1, 0] 0 0 [5]] [] 0 0 0)
    (by decide) (by rfl) (by decide) (Cargo.mk 5 10 1 1) (by decide)

end CargoSystem
